/-
Verification of the rmcl/rmfuse core against its specification.

The Python sources are embedded shallowly: byte strings become `List Nat`
(each element a byte value), Python dicts become insertion-ordered
association lists with replace-in-place update, fallible code returns
`Option` or `Except`, and external library calls (zlib, bz2, lzma) enter
as explicit function parameters.
-/
import Mathlib

set_option autoImplicit false

namespace Rmcl

/-! ### Python-dict association lists

Python dicts preserve insertion order, replace values in place on an
existing key, and append new keys at the end.  `dictGet` is `dict.get`
(returning `none` instead of raising). -/

def dictGet {κ α : Type} [DecidableEq κ] (k : κ) : List (κ × α) → Option α
  | [] => none
  | (k', v) :: rest => if k' = k then some v else dictGet k rest

def dictSet {κ α : Type} [DecidableEq κ] (k : κ) (v : α) : List (κ × α) → List (κ × α)
  | [] => [(k, v)]
  | (k', v') :: rest => if k' = k then (k, v) :: rest else (k', v') :: dictSet k v rest

def dictKeys {κ α : Type} (m : List (κ × α)) : List κ := m.map Prod.fst

/-! ### Bytes

`leNat` is `int.from_bytes(bs, 'little')`.  `leBytes n v` is the n-byte
little-endian encoding used by the reference ZIP encoder. -/

def leNat : List Nat → Nat
  | [] => 0
  | b :: rest => b + 256 * leNat rest

def leBytes : Nat → Nat → List Nat
  | 0, _ => []
  | n + 1, v => v % 256 :: leBytes n (v / 256)

abbrev bytesOk (l : List Nat) : Prop := ∀ b ∈ l, b < 256

/-- `read_int(nbytes)` of zipstream.py: read up to `n` bytes, interpret
little-endian, hand back the rest of the stream. -/
def readLE (n : Nat) (s : List Nat) : Nat × List Nat := (leNat (s.take n), s.drop n)

/-- `stream.read(n)`: up to `n` raw bytes plus the rest of the stream. -/
def readRaw (n : Nat) (s : List Nat) : List Nat × List Nat := (s.take n, s.drop n)

/-! ### CRC-32 (binascii.crc32, CRC-32/ISO-HDLC: reflected polynomial
0xEDB88320, initial value 0xFFFFFFFF, final xor 0xFFFFFFFF) -/

def crc32Poly : Nat := 0xEDB88320

def crc32Step (c : Nat) : Nat :=
  if c % 2 = 1 then (c / 2) ^^^ crc32Poly else c / 2

def crc32Byte (c b : Nat) : Nat := crc32Step^[8] (c ^^^ b)

def crc32 (data : List Nat) : Nat := (data.foldl crc32Byte 0xFFFFFFFF) ^^^ 0xFFFFFFFF

/-! ### rmapy/zipstream.py -/

inductive ZipErr
  | invalidSignature
  | unsupportedCompression (m : Nat)
  | failedChecksum
  | libraryError
deriving DecidableEq

structure ZipEntry where
  version : Nat
  flags : Nat
  compression : Nat
  datetime_info : List Nat
  crc : Nat
  compressed_size : Nat
  uncompressed_size : Nat
  filename_size : Nat
  extra_field_size : Nat
  filename : List Nat
  extra_field : List Nat
  contents : Option (List Nat)
deriving DecidableEq

/-- The `decompressors` table of zipstream.py binds methods 8, 12 and 14 to
`zlib.decompress(x, wbits=-15)`, `bz2.decompress` and the lzma helper.
Those three are external library collaborators, so they enter the
embedding as parameters; a `none` result models a library exception on
input the library rejects.  Method 0 is the in-source `lambda x: x`. -/
structure ExtDecompressors where
  inflateRaw : List Nat → Option (List Nat)
  bz2Dec : List Nat → Option (List Nat)
  lzmaDec : List Nat → Option (List Nat)

def decompressors (D : ExtDecompressors) : Nat → Option (List Nat → Option (List Nat))
  | 0 => some (fun x => some x)
  | 8 => some D.inflateRaw
  | 12 => some D.bz2Dec
  | 14 => some D.lzmaDec
  | _ => none

/-- A concrete decompressor table for witness statements: every external
decoder behaves as the identity. -/
def idDecompressors : ExtDecompressors :=
  ⟨fun x => some x, fun x => some x, fun x => some x⟩

/-- `ZipEntry.from_stream`.  A Python stream `read(n)` returns up to `n`
bytes, so it is `take`/`drop` on the remaining byte list; the remaining
stream is threaded through and returned next to the parsed entry.
`.ok none` is the `return None` on an empty stream. -/
def ZipEntry.from_stream (D : ExtDecompressors) (stream : List Nat) :
    Except ZipErr (Option (ZipEntry × List Nat)) :=
  let (signature, s0) := readRaw 4 stream
  if signature = [] then .ok none
  else if signature ≠ [0x50, 0x4b, 0x03, 0x04] then .error .invalidSignature
  else
    let (version, s1) := readLE 2 s0
    let (flags, s2) := readLE 2 s1
    let (compression, s3) := readLE 2 s2
    let (datetime_info, s4) := readRaw 4 s3
    let (crc, s5) := readLE 4 s4
    let (compressed_size, s6) := readLE 4 s5
    let (uncompressed_size, s7) := readLE 4 s6
    let (filename_size, s8) := readLE 2 s7
    let (extra_field_size, s9) := readLE 2 s8
    let (filename, s10) := readRaw filename_size s9
    let (extra_field, s11) := readRaw extra_field_size s10
    let (compressed, rest) := readRaw compressed_size s11
    if compressed.length = compressed_size then
      match decompressors D compression with
      | none => .error (.unsupportedCompression compression)
      | some dec =>
        match dec compressed with
        | none => .error .libraryError
        | some contents =>
          if crc32 contents ≠ crc then .error .failedChecksum
          else .ok (some (⟨version, flags, compression, datetime_info, crc,
                          compressed_size, uncompressed_size, filename_size,
                          extra_field_size, filename, extra_field, some contents⟩, rest))
    else
      .ok (some (⟨version, flags, compression, datetime_info, crc,
                  compressed_size, uncompressed_size, filename_size,
                  extra_field_size, filename, extra_field, none⟩, rest))

/-- Input family for the ZIP theorems: a local-file record as a reference
encoder lays it out, with an explicit crc field value `crcVal` and an
explicit byte payload `body` following the extra field. -/
def localRecord (vers fl comp : Nat) (dt : List Nat) (crcVal csize usize fnlen eflen : Nat)
    (fname extra body : List Nat) : List Nat :=
  [0x50, 0x4b, 0x03, 0x04] ++ (leBytes 2 vers ++ (leBytes 2 fl ++ (leBytes 2 comp ++
  (dt ++ (leBytes 4 crcVal ++ (leBytes 4 csize ++ (leBytes 4 usize ++
  (leBytes 2 fnlen ++ (leBytes 2 eflen ++ (fname ++ (extra ++ body)))))))))))

/-! ### rmcl/zipdir.py — central-directory scanner

`FIXED_HEADER_FMT = '<HHHH4sLLLHHHH2s4sL'` (42 bytes).  `struct.unpack`
raises `struct.error` when the stream holds fewer than 42 bytes after the
signature; `.error ()` models that exception. -/

structure ZipHeader where
  version_made : Nat
  version_read : Nat
  flags : Nat
  compression : Nat
  datetime_info : List Nat
  crc : Nat
  compressed_size : Nat
  uncompressed_size : Nat
  filename_length : Nat
  extra_field_length : Nat
  file_comment_length : Nat
  disk_number : Nat
  internal_attr : List Nat
  external_attr : List Nat
  header_offset : Nat
  filename : List Nat
  extra_field : List Nat
  file_comment : List Nat
deriving DecidableEq

def ZipHeader.from_stream (s : List Nat) : Except Unit (Option (ZipHeader × List Nat)) :=
  let (signature, s0) := readRaw 4 s
  if signature ≠ [0x50, 0x4b, 0x01, 0x02] then .ok none
  else
    let (buffer, s1) := readRaw 42 s0
    if buffer.length = 42 then
      let (version_made, b0) := readLE 2 buffer
      let (version_read, b1) := readLE 2 b0
      let (flags, b2) := readLE 2 b1
      let (compression, b3) := readLE 2 b2
      let (datetime_info, b4) := readRaw 4 b3
      let (crc, b5) := readLE 4 b4
      let (compressed_size, b6) := readLE 4 b5
      let (uncompressed_size, b7) := readLE 4 b6
      let (filename_length, b8) := readLE 2 b7
      let (extra_field_length, b9) := readLE 2 b8
      let (file_comment_length, b10) := readLE 2 b9
      let (disk_number, b11) := readLE 2 b10
      let (internal_attr, b12) := readRaw 2 b11
      let (external_attr, b13) := readRaw 4 b12
      let (header_offset, _) := readLE 4 b13
      let (filename, s2) := readRaw filename_length s1
      let (extra_field, s3) := readRaw extra_field_length s2
      let (file_comment, rest) := readRaw file_comment_length s3
      .ok (some (⟨version_made, version_read, flags, compression, datetime_info,
                  crc, compressed_size, uncompressed_size, filename_length,
                  extra_field_length, file_comment_length, disk_number,
                  internal_attr, external_attr, header_offset,
                  filename, extra_field, file_comment⟩, rest))
    else .error ()

/-! ### rmapy/api.py -/

inductive FileType
  | pdf
  | epub
  | notes
  | unknown
deriving DecidableEq

/-- UTF-8 bytes of the literal `b'.content'`. -/
def contentExt : List Nat := [46, 99, 111, 110, 116, 101, 110, 116]

/-- UTF-8 bytes of the literal `b'.pdf'`. -/
def pdfExt : List Nat := [46, 112, 100, 102]

/-- UTF-8 bytes of the literal `b'.epub'`. -/
def epubExt : List Nat := [46, 101, 112, 117, 98]

/-- `bytes.rfind(needle)`: the largest starting index of `needle`, or
`none` for Python's -1. -/
def rfindSub (needle hay : List Nat) : Option Nat :=
  (List.range (hay.length + 1)).foldl
    (fun acc i => if needle.isPrefixOf (hay.drop i) then some i else acc) none

/-- The scanning loop of `Client.get_file_details`.  Each successful
`ZipHeader.from_stream` consumes at least 46 bytes, so a fuel of
`stream length + 1` never runs out; the fuel-0 branch is unreachable
from `get_file_details`. -/
def detailsLoop : Nat → List Nat → Except Unit (FileType × Option Nat)
  | 0, _ => .error ()
  | fuel + 1, s =>
    match ZipHeader.from_stream s with
    | .error e => .error e
    | .ok none => .ok (.notes, none)
    | .ok (some (item, rest)) =>
      if pdfExt.isSuffixOf item.filename then .ok (.pdf, some item.uncompressed_size)
      else if epubExt.isSuffixOf item.filename then .ok (.epub, some item.uncompressed_size)
      else detailsLoop fuel rest

/-- `Client.get_file_details` on the byte range the server returned:
`key_index = content.rfind(b'.content') - 36 - 46`; negative means
`(unknown, None)`, otherwise the central-directory scan starts at
`key_index`. -/
def get_file_details (content : List Nat) : Except Unit (FileType × Option Nat) :=
  match rfindSub contentExt content with
  | none => .ok (.unknown, none)
  | some i =>
    if i < 82 then .ok (.unknown, none)
    else detailsLoop (content.length + 1) (content.drop (i - 82))

/-- Spec-side description of the scan: the list of central-directory
records the stream parses into, read with the same `ZipHeader.from_stream`
until its end-of-directory `none`, against which the filename search of
`get_file_details` is judged.  Fuel as in `detailsLoop`. -/
def scanHeaders : Nat → List Nat → Except Unit (List ZipHeader)
  | 0, _ => .error ()
  | fuel + 1, s =>
    match ZipHeader.from_stream s with
    | .error e => .error e
    | .ok none => .ok []
    | .ok (some (item, rest)) =>
      match scanHeaders fuel rest with
      | .error e => .error e
      | .ok hs => .ok (item :: hs)

/-- A central-directory record as a reference encoder lays it out
(signature, the 42-byte fixed header, then filename, extra field and
comment). -/
def centralRecord (vm vr fl comp : Nat) (dt : List Nat) (crcVal csize usize disk : Nat)
    (iattr eattr : List Nat) (hoff : Nat) (fname extra fcomment : List Nat) : List Nat :=
  [0x50, 0x4b, 0x01, 0x02] ++ (leBytes 2 vm ++ (leBytes 2 vr ++ (leBytes 2 fl ++
  (leBytes 2 comp ++ (dt ++ (leBytes 4 crcVal ++ (leBytes 4 csize ++ (leBytes 4 usize ++
  (leBytes 2 fname.length ++ (leBytes 2 extra.length ++ (leBytes 2 fcomment.length ++
  (leBytes 2 disk ++ (iattr ++ (eattr ++ (leBytes 4 hoff ++
  (fname ++ (extra ++ fcomment)))))))))))))))))

/-- A served byte range whose only `.content` occurrence sits 82 bytes in,
with no central-directory record at the probe offset (the bytes there are
zeros, not the 0x02014B50 signature). -/
def misalignedContent : List Nat := List.replicate 82 0 ++ contentExt

/-- An inner filename of 36 filler bytes, then `.content`, then `.pdf`:
it puts the last `.content` occurrence exactly 82 bytes past the start of
its central-directory record, where the probe expects it. -/
def alignedPdfName : List Nat := List.replicate 36 97 ++ contentExt ++ pdfExt

/-- A served byte range holding one central-directory record for
`alignedPdfName` with uncompressed size 777. -/
def alignedPdfContent : List Nat :=
  centralRecord 20 20 0 0 [0, 0, 0, 0] 0 7 777 0 [0, 0] [0, 0, 0, 0] 0
    alignedPdfName [] []

/-- The parsed header of `alignedPdfContent`. -/
def alignedPdfHeader : ZipHeader :=
  ⟨20, 20, 0, 0, [0, 0, 0, 0], 0, 7, 777, 48, 0, 0, 0, [0, 0], [0, 0, 0, 0], 0,
   alignedPdfName, [], []⟩

/-- An inner filename of 36 filler bytes then `.content`, as a UUID-named
`<uuid>.content` member has: the last `.content` occurrence sits 82 bytes
past the start of its record, and the name matches no known extension. -/
def uuidContentName : List Nat := List.replicate 36 97 ++ contentExt

/-- A served byte range with two central-directory records: the
`.content` member first, then an `x.pdf` member of uncompressed size
777. -/
def twoRecordContent : List Nat :=
  centralRecord 20 20 0 0 [0, 0, 0, 0] 0 7 3 0 [0, 0] [0, 0, 0, 0] 0
    uuidContentName [] [] ++
  centralRecord 20 20 0 0 [0, 0, 0, 0] 0 7 777 0 [0, 0] [0, 0, 0, 0] 0
    [120, 46, 112, 100, 102] [] []

/-- The first parsed record of `twoRecordContent`. -/
def twoRecordHeader1 : ZipHeader :=
  ⟨20, 20, 0, 0, [0, 0, 0, 0], 0, 7, 3, 44, 0, 0, 0, [0, 0], [0, 0, 0, 0], 0,
   uuidContentName, [], []⟩

/-- The second parsed record of `twoRecordContent`. -/
def twoRecordHeader2 : ZipHeader :=
  ⟨20, 20, 0, 0, [0, 0, 0, 0], 0, 7, 777, 5, 0, 0, 0, [0, 0], [0, 0, 0, 0], 0,
   [120, 46, 112, 100, 102], [], []⟩

/-! #### check_response and the mutating operations -/

structure RespElem where
  Success : Bool
  Message : String
  BlobURLPut : Option String
deriving DecidableEq

/-- An HTTP response as the client sees it: the status code and the parsed
JSON body (`none` when `response.json()` would raise). -/
structure Response where
  status_code : Nat
  json : Option (List RespElem)
deriving DecidableEq

inductive ApiFailure
  | api (msg : String)
  | jsonDecode
deriving DecidableEq

def check_response (r : Response) : Except ApiFailure Bool :=
  if 400 ≤ r.status_code then
    .error (.api ("Got An invalid HTTP Response: " ++ toString r.status_code))
  else
    match r.json with
    | none => .error .jsonDecode
    | some [] => .error (.api "Got An empty response")
    | some (el :: _) =>
      if el.Success = false then .error (.api el.Message)
      else .ok true

structure ClientState where
  refresh_deadline : Option Nat
deriving DecidableEq

/-- `Client.delete`: PUTs `{ID, Version}` to /delete (the response is an
input here), clears the refresh deadline, then validates the response. -/
def Client.delete (st : ClientState) (response : Response) :
    ClientState × Except ApiFailure Bool :=
  ({ st with refresh_deadline := none }, check_response response)

/-- `Client.update_metadata`: PUTs the bumped metadata copy (the response
is an input here), clears the refresh deadline, then validates. -/
def Client.update_metadata (st : ClientState) (response : Response) :
    ClientState × Except ApiFailure Bool :=
  ({ st with refresh_deadline := none }, check_response response)

/-- `res.json()[0]['BlobURLPut']`, with IndexError/KeyError as `none`. -/
def blobURLPut (r : Response) : Option String :=
  match r.json with
  | some (el :: _) => el.BlobURLPut
  | _ => none

/-- `Client.upload`: validate the upload request response `r1`, extract the
blob PUT url, PUT the bytes (status `putStatus`), then update_metadata
with response `r3`. -/
def Client.upload (st : ClientState) (r1 : Response) (putStatus : Nat) (r3 : Response) :
    ClientState × Except ApiFailure Bool :=
  match check_response r1 with
  | .error e => (st, .error e)
  | .ok _ =>
    match blobURLPut r1 with
    | none => (st, .error (.api "Failed to get upload URL"))
    | some _ =>
      if 400 ≤ putStatus then
        (st, .error (.api ("Upload failed with status " ++ toString putStatus)))
      else Client.update_metadata st r3

/-- The deadline test of `Client.get_by_id`:
`if not self.refresh_deadline or now() > self.refresh_deadline`. -/
def needs_refresh (deadline : Option Nat) (tnow : Nat) : Bool :=
  match deadline with
  | none => true
  | some d => decide (d < tnow)

/-! #### The item graph and update_items -/

inductive ItemKind
  | document
  | folder
  | vfolder
deriving DecidableEq

/-- An Item as the graph sees it.  A Python `Document` has no `children`
attribute; it is modelled by an always-empty `children` list (only
`Folder.__init__` and the two virtual folders create one, and only
folders are written to). -/
structure PItem where
  id : String
  version : Nat
  parent : Option String
  kind : ItemKind
  children : List String
deriving DecidableEq

def PItem.virtual (it : PItem) : Bool :=
  match it.kind with
  | .vfolder => true
  | _ => false

/-- `isinstance(item, Folder)` — `VirtualFolder` subclasses `Folder`. -/
def PItem.isFolder (it : PItem) : Bool :=
  match it.kind with
  | .document => false
  | _ => true

abbrev ItemDict := List (String × PItem)

/-- One metadata object of the document-storage list. -/
structure Meta where
  ID : String
  Version : Nat
  Parent : Option String
  Type' : String
deriving DecidableEq

def Item.from_metadata (m : Meta) : Option PItem :=
  if m.Type' = "DocumentType" then some ⟨m.ID, m.Version, m.Parent, .document, []⟩
  else if m.Type' = "CollectionType" then some ⟨m.ID, m.Version, m.Parent, .folder, []⟩
  else none

def clearChildren (it : PItem) : PItem := { it with children := [] }

/-- The body of `update_items`' per-entry loop.  `none` models an
uncaught exception: `old_ids.remove` on an absent id, or `None.id` after
`from_metadata` returned `None`. -/
def updateStep (st : ItemDict × List String) (e : Meta) :
    Option (ItemDict × List String) :=
  match dictGet e.ID st.1 with
  | some old =>
    if old.id ∈ st.2 then
      let oldIds := st.2.erase old.id
      if old.version ≠ e.Version then
        match Item.from_metadata e with
        | some new => some (dictSet new.id new st.1, oldIds)
        | none => none
      else if old.isFolder then some (dictSet e.ID (clearChildren old) st.1, oldIds)
      else some (st.1, oldIds)
    else none
  | none =>
    match Item.from_metadata e with
    | some new => some (dictSet new.id new st.1, st.2)
    | none => none

def runEntries : ItemDict × List String → List Meta → Option (ItemDict × List String)
  | st, [] => some st
  | st, e :: rest =>
    match updateStep st e with
    | none => none
    | some st' => runEntries st' rest

/-- `self.by_id[i.parent].children.append(i)` for one item: `none` models
a KeyError (parent id absent) or an AttributeError (the parent is a
`Document`, which has no `children`). -/
def addChild (byId : ItemDict) (cid : String) (p : String) : Option ItemDict :=
  match dictGet p byId with
  | none => none
  | some f =>
    if f.isFolder then some (dictSet p { f with children := f.children ++ [cid] } byId)
    else none

/-- The children-accumulation loop over `by_id.values()`; the id and
parent of every value are fixed before the loop, so they are passed as a
precomputed pair list. -/
def addChildren (byId : ItemDict) : List (String × Option String) → Option ItemDict
  | [] => some byId
  | (_, none) :: rest => addChildren byId rest
  | (cid, some p) :: rest =>
    match addChild byId cid p with
    | none => none
    | some b => addChildren b rest

/-- `Client.update_items` given the parsed metadata list.  `none` models
any uncaught exception along the way; the refresh deadline update is not
part of the returned map. -/
def update_items (byId : ItemDict) (entries : List Meta) : Option ItemDict :=
  let oldIds := (dictKeys byId).filter (fun k => decide (k ≠ "") && decide (k ≠ "trash"))
  match dictGet "" byId, dictGet "trash" byId with
  | some root, some trash =>
    let b0 := dictSet "" (clearChildren root) byId
    let b1 := dictSet "trash" (clearChildren trash) b0
    match runEntries (b1, oldIds) entries with
    | none => none
    | some (b2, remaining) =>
      let b3 := b2.filter (fun q => decide (q.1 ∉ remaining))
      addChildren b3 (b3.map (fun q => (q.2.id, q.2.parent)))
  | _, _ => none

/-- The root `VirtualFolder('', ROOT_ID)` of `Client.__init__`. -/
def rootFolder : PItem := ⟨"", 0, none, .vfolder, []⟩

/-- The trash `VirtualFolder('.trash', TRASH_ID, root.id)`. -/
def trashFolder : PItem := ⟨"trash", 0, some "", .vfolder, []⟩

/-- The `by_id` map `Client.__init__` starts from. -/
def clientInitById : ItemDict := [("", rootFolder), ("trash", trashFolder)]

/-- A two-entry metadata list: folder `f1` under root, document `d1`
inside it. -/
def exEntries : List Meta :=
  [⟨"f1", 1, some "", "CollectionType"⟩, ⟨"d1", 1, some "f1", "DocumentType"⟩]

/-- What `update_items` produces from `clientInitById` and `exEntries`. -/
def exResult : ItemDict :=
  [("", ⟨"", 0, none, .vfolder, ["trash", "f1"]⟩),
   ("trash", ⟨"trash", 0, some "", .vfolder, []⟩),
   ("f1", ⟨"f1", 1, some "", .folder, ["d1"]⟩),
   ("d1", ⟨"d1", 1, some "f1", .document, []⟩)]

/-! #### rmcl/items.py — Item.delete -/

inductive DeleteAction
  | remoteDelete
  | softDelete
deriving DecidableEq

/-- Python truthiness of `folder.parent` (`None` and `''` are falsy). -/
def parentTruthy (p : Option String) : Bool :=
  match p with
  | none => false
  | some s => s != ""

/-- The ancestor walk of `Item.delete`: follow `folder.parent` through the
id map until a falsy parent or the trash folder.  `get_by_id` is the map
lookup; `none` models a KeyError or a never-terminating parent cycle
(`fuel` ran out). -/
def deleteWalk (byId : ItemDict) : Option String → Nat → Option DeleteAction
  | p, fuel =>
    if parentTruthy p then
      match fuel with
      | 0 => none
      | fuel' + 1 =>
        match p with
        | none => none
        | some pid =>
          match dictGet pid byId with
          | none => none
          | some f =>
            if f.id = "trash" then some .remoteDelete
            else deleteWalk byId f.parent fuel'
    else some .softDelete

/-- `Item.delete`: the virtual check, the ancestor walk, then either the
remote delete (item unchanged) or the soft delete (parent set to
`'trash'`, metadata update sent). -/
def Item.delete (byId : ItemDict) (it : PItem) (fuel : Nat) :
    Option (DeleteAction × PItem) :=
  if it.virtual then none
  else
    match deleteWalk byId it.parent fuel with
    | none => none
    | some .remoteDelete => some (.remoteDelete, it)
    | some .softDelete => some (.softDelete, { it with parent := some "trash" })

/-- Trash is reachable from the given parent pointer by following parent
links through the map, stopping (as the code does) at the first trash
ancestor. -/
inductive TrashAncestor (byId : ItemDict) : Option String → Prop
  | found (p : Option String) (s : String) (f : PItem) :
      p = some s → s ≠ "" → dictGet s byId = some f → f.id = "trash" →
      TrashAncestor byId p
  | step (p : Option String) (s : String) (f : PItem) :
      p = some s → s ≠ "" → dictGet s byId = some f → f.id ≠ "trash" →
      TrashAncestor byId f.parent → TrashAncestor byId p

/-! #### rmcl/config.py -/

inductive SerFormat
  | json
  | yaml
deriving DecidableEq

/-- `CONFIG_FILE = xdg_config_home() / 'rmcl' / 'config.yaml'`, as path
components under the XDG config home. -/
def CONFIG_FILE (xdgConfigHome : List String) : List String :=
  xdgConfigHome ++ ["rmcl", "config.yaml"]

/-- `load` reads `CONFIG_FILE` and parses it with `yaml.load(...,
Loader=BaseLoader)`: the path it reads and the format it parses. -/
def load_source (xdgConfigHome : List String) : List String × SerFormat :=
  (CONFIG_FILE xdgConfigHome, SerFormat.yaml)

/-- `dump` writes `yaml.dump(config)` to `CONFIG_FILE`: the path it
writes and the format it emits. -/
def dump_target (xdgConfigHome : List String) : List String × SerFormat :=
  (CONFIG_FILE xdgConfigHome, SerFormat.yaml)

/-! #### fuse.py -/

/-- A key of the inode bidict.  The code is meant to store item ids
(strings), but `lookup` passes a whole Item object; `obj o` stands for a
Python object with identity `o`. -/
inductive IKey
  | str (s : String)
  | obj (o : Nat)
deriving DecidableEq

structure FSState where
  next_inode : Nat
  inode_map : List (Nat × IKey)
deriving DecidableEq

/-- `RmApiFS.__init__`: root inode 1 ↦ `''`, inode 2 ↦ `'MODE_ID'`,
counter at 3. -/
def RmApiFS.initState : FSState :=
  ⟨3, [(1, IKey.str ""), (2, IKey.str "MODE_ID")]⟩

/-- `bidict.inverse` lookup: the inode currently mapped to this key. -/
def invGet {κ α : Type} [DecidableEq α] (v : α) : List (κ × α) → Option κ
  | [] => none
  | p :: rest => if p.2 = v then some p.1 else invGet v rest

/-- `RmApiFS.get_inode`: allocate a fresh inode for an unseen key, always
return the inode mapped to the key. -/
def get_inode (st : FSState) (k : IKey) : FSState × Nat :=
  match invGet k st.inode_map with
  | some ino => (st, ino)
  | none => (⟨st.next_inode + 1, st.inode_map ++ [(st.next_inode, k)]⟩, st.next_inode)

/-- A child as `lookup`/`readdir` see it: the Python object identity, the
item id and the visible name. -/
structure ChildRef where
  objId : Nat
  id : String
  name : String
deriving DecidableEq

/-- The child-matching branch of `RmApiFS.lookup` (fuse.py lines 111-116):
the first child whose name matches is passed to `get_inode` as `f`
itself — the Item object, not `f.id`. `none` is FUSEError(ENOENT). -/
def lookup_child_inode (st : FSState) (children : List ChildRef) (name : String) :
    Option (FSState × Nat) :=
  match children.find? (fun f => f.name == name) with
  | some f => some (get_inode st (IKey.obj f.objId))
  | none => none

/-- The inode `readdir` computes for the same child (fuse.py line 164):
`self.get_inode(c.id)`. -/
def readdir_child_inode (st : FSState) (c : ChildRef) : FSState × Nat :=
  get_inode st (IKey.str c.id)

inductive FSMode
  | meta
  | raw
  | orig
deriving DecidableEq

/-- `FSMode[command]`: Python Enum lookup by member name. -/
def FSMode.ofName (s : String) : Option FSMode :=
  if s = "meta" then some .meta
  else if s = "raw" then some .raw
  else if s = "orig" then some .orig
  else none

inductive FuseErrno
  | ENOENT
  | EPERM
  | EINVAL
deriving DecidableEq

inductive WriteFailure
  | fuse (e : FuseErrno)
  | keyError
deriving DecidableEq

/-- The filesystem state `RmApiFS.write` can touch: the display mode, the
client's refresh deadline, and the inode map it resolves `fh` in. -/
structure WFSState where
  mode : FSMode
  client_refresh_deadline : Option Nat
  inode_map : List (Nat × IKey)
deriving DecidableEq

/-- `buf.decode('utf-8').strip().lower()` for the ASCII commands the mode
file accepts: strip surrounding whitespace and lowercase. -/
def writeCommand (buf : String) : String :=
  String.mk (((buf.data.dropWhile Char.isWhitespace).reverse.dropWhile
    Char.isWhitespace).reverse.map Char.toLower)

/-- `RmApiFS.write`.  `buf` is the written bytes, given as the decoded
text (the commands are ASCII; `buf.utf8ByteSize` is Python's `len(buf)`
on the raw buffer).  `keyError` models `get_id` on an unmapped handle. -/
def RmApiFS.write (st : WFSState) (fh : Nat) (buf : String) :
    Except WriteFailure (Nat × WFSState) :=
  match dictGet fh st.inode_map with
  | none => .error .keyError
  | some k =>
    if k ≠ IKey.str "MODE_ID" then .error (.fuse .EPERM)
    else
      let command := writeCommand buf
      if command = "refresh" then
        .ok (buf.utf8ByteSize, { st with client_refresh_deadline := none })
      else
        match FSMode.ofName command with
        | some m => .ok (buf.utf8ByteSize, { st with mode := m })
        | none => .error (.fuse .EINVAL)

/-! ## Theorems -/

/-! ### Byte-level helper lemmas -/

theorem leBytes_length (n v : Nat) : (leBytes n v).length = n := by
  induction n generalizing v with
  | zero => rfl
  | succ n ih => simpa [leBytes] using ih (v / 256)

theorem leNat_leBytes (n v : Nat) (h : v < 256 ^ n) : leNat (leBytes n v) = v := by
  induction n generalizing v with
  | zero =>
    simp only [pow_zero, Nat.lt_one_iff] at h
    simp [leBytes, leNat, h]
  | succ n ih =>
    have hdiv : v / 256 < 256 ^ n := by
      rw [Nat.div_lt_iff_lt_mul (by norm_num)]
      calc v < 256 ^ (n + 1) := h
        _ = 256 ^ n * 256 := by ring
    simp [leBytes, leNat, ih _ hdiv]
    omega

theorem take_append_len {α : Type} (a b : List α) (n : Nat) (h : a.length = n) :
    (a ++ b).take n = a := by
  subst h; exact List.take_left a b

theorem drop_append_len {α : Type} (a b : List α) (n : Nat) (h : a.length = n) :
    (a ++ b).drop n = b := by
  subst h; exact List.drop_left a b

theorem readRaw_append (a b : List Nat) (n : Nat) (h : a.length = n) :
    readRaw n (a ++ b) = (a, b) := by
  subst h; simp [readRaw, List.take_left, List.drop_left]

theorem readLE_append (a b : List Nat) (n : Nat) (h : a.length = n) :
    readLE n (a ++ b) = (leNat a, b) := by
  subst h; simp [readLE, List.take_left, List.drop_left]

theorem readLE_leBytes (n v : Nat) (b : List Nat) (h : v < 256 ^ n) :
    readLE n (leBytes n v ++ b) = (v, b) := by
  rw [readLE_append _ _ _ (leBytes_length n v), leNat_leBytes n v h]

theorem crc32Step_lt (c : Nat) (h : c < 2 ^ 32) : crc32Step c < 2 ^ 32 := by
  unfold crc32Step crc32Poly
  split
  · exact Nat.xor_lt_two_pow (by omega) (by norm_num)
  · omega

theorem crc32Step_iter_lt (k c : Nat) (h : c < 2 ^ 32) : crc32Step^[k] c < 2 ^ 32 := by
  induction k generalizing c with
  | zero => simpa using h
  | succ k ih => rw [Function.iterate_succ_apply]; exact ih _ (crc32Step_lt c h)

theorem crc32Byte_lt (c b : Nat) (hc : c < 2 ^ 32) (hb : b < 256) :
    crc32Byte c b < 2 ^ 32 :=
  crc32Step_iter_lt 8 _ (Nat.xor_lt_two_pow hc (lt_of_lt_of_le hb (by norm_num)))

theorem crc32_foldl_lt (data : List Nat) (c : Nat) (hc : c < 2 ^ 32)
    (h : bytesOk data) : data.foldl crc32Byte c < 2 ^ 32 := by
  induction data generalizing c with
  | nil => simpa using hc
  | cons b rest ih =>
    simp only [List.foldl_cons]
    exact ih _ (crc32Byte_lt c b hc (h b (by simp))) (fun x hx => h x (by simp [hx]))

theorem crc32_lt (data : List Nat) (h : bytesOk data) : crc32 data < 2 ^ 32 := by
  unfold crc32
  exact Nat.xor_lt_two_pow (crc32_foldl_lt data _ (by norm_num) h) (by norm_num)

/-! ### C6 — truncated local entries -/

/-- Claim C6: a ZIP byte stream that begins with a valid local-file-header
signature and complete fixed header (including the declared filename and
extra field) but whose compressed payload is truncated short of
`compressed_size` makes `ZipEntry.from_stream` return an entry carrying
the header's filename with `contents = none`, instead of raising. -/
theorem truncated_stream_returns_header_entry (D : ExtDecompressors)
    (vers fl comp : Nat) (dt : List Nat) (crcVal csize usize : Nat)
    (fname extra body : List Nat)
    (hv : vers < 256 ^ 2) (hf : fl < 256 ^ 2) (hc : comp < 256 ^ 2)
    (hdt : dt.length = 4) (hcrc : crcVal < 256 ^ 4)
    (hcs : csize < 256 ^ 4) (hus : usize < 256 ^ 4)
    (hfn : fname.length < 256 ^ 2) (hex : extra.length < 256 ^ 2)
    (htr : body.length < csize) :
    ZipEntry.from_stream D
      (localRecord vers fl comp dt crcVal csize usize fname.length extra.length
        fname extra body) =
      .ok (some (⟨vers, fl, comp, dt, crcVal, csize, usize, fname.length,
                  extra.length, fname, extra, none⟩, [])) := by
  have h1 : body.take csize = body := List.take_of_length_le (le_of_lt htr)
  have h2 : body.drop csize = [] := List.drop_eq_nil_of_le (le_of_lt htr)
  have hne : body.length ≠ csize := Nat.ne_of_lt htr
  rw [ZipEntry.from_stream, localRecord]
  rw [readRaw_append [0x50, 0x4b, 0x03, 0x04] _ 4 rfl]
  dsimp only []
  rw [readLE_leBytes 2 vers _ hv]
  dsimp only []
  rw [readLE_leBytes 2 fl _ hf]
  dsimp only []
  rw [readLE_leBytes 2 comp _ hc]
  dsimp only []
  rw [readRaw_append dt _ 4 hdt]
  dsimp only []
  rw [readLE_leBytes 4 crcVal _ hcrc]
  dsimp only []
  rw [readLE_leBytes 4 csize _ hcs]
  dsimp only []
  rw [readLE_leBytes 4 usize _ hus]
  dsimp only []
  rw [readLE_leBytes 2 fname.length _ hfn]
  dsimp only []
  rw [readLE_leBytes 2 extra.length _ hex]
  dsimp only []
  rw [readRaw_append fname _ fname.length rfl]
  dsimp only []
  rw [readRaw_append extra _ extra.length rfl]
  dsimp only []
  rw [readRaw, h1, h2]
  rw [if_neg hne]
  rfl

/-- Claim C6 witness: a concrete 5-byte-payload record cut to 2 bytes. -/
theorem truncated_stream_returns_header_entry_witness :
    (([1, 2] : List Nat).length < 5) ∧
    ZipEntry.from_stream idDecompressors
      (localRecord 20 0 0 [0, 0, 0, 0] 123 5 5 2 0 [97, 98] [] [1, 2]) =
      .ok (some (⟨20, 0, 0, [0, 0, 0, 0], 123, 5, 5, 2, 0, [97, 98], [], none⟩, [])) := by
  refine ⟨by decide, ?_⟩
  have h := truncated_stream_returns_header_entry idDecompressors
    20 0 0 [0, 0, 0, 0] 123 5 5 [97, 98] [] [1, 2]
    (by decide) (by decide) (by decide) (by decide) (by decide) (by decide)
    (by decide) (by decide) (by decide) (by decide)
  simpa using h

/-! ### C7 — local entries written by a reference encoder -/

/-- Claim C7: for a local-file record laid out by a reference encoder with
one of the supported compression methods (0, 8, 12, 14 — exactly those
with a `decompressors` entry), `ZipEntry.from_stream` returns the entry
with the encoder's filename and decompressed payload and hands back the
remaining stream, so repeated calls walk the concatenated records; a crc
field that does not match the CRC-32 of the decompressed bytes raises
`ZipError("Failed checksum")`; a non-empty stream that does not start
with signature 0x04034B50 raises `ZipError("Invalid signature")`; an
empty stream returns `None`. -/
theorem zipstream_reference_roundtrip (D : ExtDecompressors) :
    (∀ (enc : List Nat → List Nat) (dec : List Nat → Option (List Nat))
       (comp vers fl : Nat) (dt fname extra payload rest : List Nat),
       decompressors D comp = some dec → dec (enc payload) = some payload →
       vers < 256 ^ 2 → fl < 256 ^ 2 → comp < 256 ^ 2 → dt.length = 4 →
       (enc payload).length < 256 ^ 4 → payload.length < 256 ^ 4 →
       fname.length < 256 ^ 2 → extra.length < 256 ^ 2 → bytesOk payload →
       ZipEntry.from_stream D
         (localRecord vers fl comp dt (crc32 payload) (enc payload).length
           payload.length fname.length extra.length fname extra
           (enc payload ++ rest)) =
         .ok (some (⟨vers, fl, comp, dt, crc32 payload, (enc payload).length,
                     payload.length, fname.length, extra.length, fname, extra,
                     some payload⟩, rest))) ∧
    (∀ (enc : List Nat → List Nat) (dec : List Nat → Option (List Nat))
       (comp vers fl crcVal : Nat) (dt fname extra payload rest : List Nat),
       decompressors D comp = some dec → dec (enc payload) = some payload →
       vers < 256 ^ 2 → fl < 256 ^ 2 → comp < 256 ^ 2 → dt.length = 4 →
       crcVal < 256 ^ 4 → crcVal ≠ crc32 payload →
       (enc payload).length < 256 ^ 4 → payload.length < 256 ^ 4 →
       fname.length < 256 ^ 2 → extra.length < 256 ^ 2 →
       ZipEntry.from_stream D
         (localRecord vers fl comp dt crcVal (enc payload).length
           payload.length fname.length extra.length fname extra
           (enc payload ++ rest)) =
         .error .failedChecksum) ∧
    (∀ s : List Nat, s ≠ [] → s.take 4 ≠ [0x50, 0x4b, 0x03, 0x04] →
       ZipEntry.from_stream D s = .error .invalidSignature) ∧
    ZipEntry.from_stream D [] = .ok none := by
  refine ⟨?_, ?_, ?_, ?_⟩
  · intro enc dec comp vers fl dt fname extra payload rest
      hdec hrt hv hf hc hdt hcs hus hfn hex hby
    rw [ZipEntry.from_stream, localRecord]
    rw [readRaw_append [0x50, 0x4b, 0x03, 0x04] _ 4 rfl]
    dsimp only []
    rw [readLE_leBytes 2 vers _ hv]
    dsimp only []
    rw [readLE_leBytes 2 fl _ hf]
    dsimp only []
    rw [readLE_leBytes 2 comp _ hc]
    dsimp only []
    rw [readRaw_append dt _ 4 hdt]
    dsimp only []
    rw [readLE_leBytes 4 (crc32 payload) _ (crc32_lt payload hby)]
    dsimp only []
    rw [readLE_leBytes 4 (enc payload).length _ hcs]
    dsimp only []
    rw [readLE_leBytes 4 payload.length _ hus]
    dsimp only []
    rw [readLE_leBytes 2 fname.length _ hfn]
    dsimp only []
    rw [readLE_leBytes 2 extra.length _ hex]
    dsimp only []
    rw [readRaw_append fname _ fname.length rfl]
    dsimp only []
    rw [readRaw_append extra _ extra.length rfl]
    dsimp only []
    rw [readRaw_append (enc payload) rest _ rfl]
    dsimp only []
    rw [if_pos rfl, hdec]
    dsimp only []
    rw [hrt]
    dsimp only []
    rw [if_neg (show ¬(crc32 payload ≠ crc32 payload) from fun hh => hh rfl)]
    rfl
  · intro enc dec comp vers fl crcVal dt fname extra payload rest
      hdec hrt hv hf hc hdt hcrc hne hcs hus hfn hex
    have hne' : crc32 payload ≠ crcVal := fun hh => hne hh.symm
    rw [ZipEntry.from_stream, localRecord]
    rw [readRaw_append [0x50, 0x4b, 0x03, 0x04] _ 4 rfl]
    dsimp only []
    rw [readLE_leBytes 2 vers _ hv]
    dsimp only []
    rw [readLE_leBytes 2 fl _ hf]
    dsimp only []
    rw [readLE_leBytes 2 comp _ hc]
    dsimp only []
    rw [readRaw_append dt _ 4 hdt]
    dsimp only []
    rw [readLE_leBytes 4 crcVal _ hcrc]
    dsimp only []
    rw [readLE_leBytes 4 (enc payload).length _ hcs]
    dsimp only []
    rw [readLE_leBytes 4 payload.length _ hus]
    dsimp only []
    rw [readLE_leBytes 2 fname.length _ hfn]
    dsimp only []
    rw [readLE_leBytes 2 extra.length _ hex]
    dsimp only []
    rw [readRaw_append fname _ fname.length rfl]
    dsimp only []
    rw [readRaw_append extra _ extra.length rfl]
    dsimp only []
    rw [readRaw_append (enc payload) rest _ rfl]
    dsimp only []
    rw [if_pos rfl, hdec]
    dsimp only []
    rw [hrt]
    dsimp only []
    rw [if_pos hne']
    rfl
  · intro s hne htake
    have hnil : ¬(s.take 4 = []) := by
      rw [List.take_eq_nil_iff]
      simp [hne]
    simp [ZipEntry.from_stream, readRaw, hnil, htake]
  · simp [ZipEntry.from_stream, readRaw]

/-- Claim C7 witness: method 0 (store) with an identity reference encoder
on payload `[97]`, filename `ab`; plus the concrete empty-stream case. -/
theorem zipstream_reference_roundtrip_witness :
    ZipEntry.from_stream idDecompressors
      (localRecord 20 0 0 [9, 9, 9, 9] (crc32 [97]) 1 1 2 0 [97, 98] [] ([97] ++ [5, 6])) =
      .ok (some (⟨20, 0, 0, [9, 9, 9, 9], crc32 [97], 1, 1, 2, 0, [97, 98], [],
                  some [97]⟩, [5, 6])) := by
  have h := (zipstream_reference_roundtrip idDecompressors).1
    (fun x => x) (fun x => some x) 0 20 0 [9, 9, 9, 9] [97, 98] [] [97] [5, 6]
    rfl rfl (by decide) (by decide) (by decide) (by decide) (by decide)
    (by decide) (by decide) (by decide) (by decide)
  simpa using h

/-! ### C3 — the tail probe of get_file_details -/

theorem detailsLoop_ok_none (fuel : Nat) (s : List Nat) (t : FileType)
    (h : detailsLoop fuel s = .ok (t, none)) : t = .notes := by
  induction fuel generalizing s with
  | zero => simp [detailsLoop] at h
  | succ fuel ih =>
    rw [detailsLoop] at h
    cases hfs : ZipHeader.from_stream s with
    | error e => rw [hfs] at h; cases h
    | ok o =>
      rw [hfs] at h
      match o with
      | none => simp at h; exact h.symm
      | some (item, rest) =>
        dsimp only [] at h
        by_cases hp : pdfExt.isSuffixOf item.filename = true
        · rw [if_pos hp] at h; simp at h
        · rw [if_neg hp] at h
          by_cases he : epubExt.isSuffixOf item.filename = true
          · rw [if_pos he] at h; simp at h
          · rw [if_neg he] at h; exact ih rest h

theorem detailsLoop_ne_unknown (fuel : Nat) (s : List Nat) (x : Option Nat) :
    detailsLoop fuel s ≠ .ok (.unknown, x) := by
  induction fuel generalizing s with
  | zero => simp [detailsLoop]
  | succ fuel ih =>
    rw [detailsLoop]
    cases hfs : ZipHeader.from_stream s with
    | error e => simp
    | ok o =>
      match o with
      | none => simp
      | some (item, rest) =>
        dsimp only []
        by_cases hp : pdfExt.isSuffixOf item.filename = true
        · rw [if_pos hp]; simp
        · rw [if_neg hp]
          by_cases he : epubExt.isSuffixOf item.filename = true
          · rw [if_pos he]; simp
          · rw [if_neg he]; exact ih rest

theorem detailsLoop_ok_some (fuel : Nat) (s : List Nat) (t : FileType) (n : Nat)
    (h : detailsLoop fuel s = .ok (t, some n)) : t = .pdf ∨ t = .epub := by
  induction fuel generalizing s with
  | zero => simp [detailsLoop] at h
  | succ fuel ih =>
    rw [detailsLoop] at h
    cases hfs : ZipHeader.from_stream s with
    | error e => rw [hfs] at h; cases h
    | ok o =>
      rw [hfs] at h
      match o with
      | none => simp at h
      | some (item, rest) =>
        dsimp only [] at h
        by_cases hp : pdfExt.isSuffixOf item.filename = true
        · rw [if_pos hp] at h; simp at h; exact Or.inl h.1.symm
        · rw [if_neg hp] at h
          by_cases he : epubExt.isSuffixOf item.filename = true
          · rw [if_pos he] at h; simp at h; exact Or.inr h.1.symm
          · rw [if_neg he] at h; exact ih rest h

theorem detailsLoop_first_pdf (fuel : Nat) (s : List Nat) (hdr : ZipHeader)
    (rest : List Nat) (hfs : ZipHeader.from_stream s = .ok (some (hdr, rest)))
    (hp : pdfExt.isSuffixOf hdr.filename = true) :
    detailsLoop (fuel + 1) s = .ok (.pdf, some hdr.uncompressed_size) := by
  rw [detailsLoop, hfs]
  dsimp only []
  rw [if_pos hp]

theorem detailsLoop_first_epub (fuel : Nat) (s : List Nat) (hdr : ZipHeader)
    (rest : List Nat) (hfs : ZipHeader.from_stream s = .ok (some (hdr, rest)))
    (hnp : pdfExt.isSuffixOf hdr.filename = false)
    (he : epubExt.isSuffixOf hdr.filename = true) :
    detailsLoop (fuel + 1) s = .ok (.epub, some hdr.uncompressed_size) := by
  rw [detailsLoop, hfs]
  dsimp only []
  rw [if_neg (by simp [hnp]), if_pos he]

theorem detailsLoop_step (fuel : Nat) (s : List Nat) (hdr : ZipHeader)
    (rest : List Nat) (hfs : ZipHeader.from_stream s = .ok (some (hdr, rest)))
    (hnp : pdfExt.isSuffixOf hdr.filename = false)
    (hne : epubExt.isSuffixOf hdr.filename = false) :
    detailsLoop (fuel + 1) s = detailsLoop fuel rest := by
  rw [detailsLoop, hfs]
  dsimp only []
  rw [if_neg (by simp [hnp]), if_neg (by simp [hne])]

theorem detailsLoop_no_match (fuel : Nat) :
    ∀ (s : List Nat) (hs : List ZipHeader),
      scanHeaders fuel s = .ok hs →
      (∀ h ∈ hs, pdfExt.isSuffixOf h.filename = false ∧
        epubExt.isSuffixOf h.filename = false) →
      detailsLoop fuel s = .ok (.notes, none) := by
  induction fuel with
  | zero =>
    intro s hs h hall
    rw [scanHeaders] at h
    cases h
  | succ fuel ih =>
    intro s hs h hall
    rw [scanHeaders] at h
    cases hfs : ZipHeader.from_stream s with
    | error e => rw [hfs] at h; cases h
    | ok o =>
      rw [hfs] at h
      match o with
      | none =>
        rw [detailsLoop, hfs]
      | some (item, rest) =>
        dsimp only [] at h
        cases hsc : scanHeaders fuel rest with
        | error e => rw [hsc] at h; cases h
        | ok hs2 =>
          rw [hsc] at h
          injection h with hh
          subst hh
          have hitem := hall item (List.mem_cons_self _ _)
          rw [detailsLoop_step fuel s item rest hfs hitem.1 hitem.2]
          exact ih rest hs2 hsc (fun g hg => hall g (List.mem_cons_of_mem _ hg))

theorem detailsLoop_match_pdf (fuel : Nat) :
    ∀ (s : List Nat) (pre post : List ZipHeader) (h : ZipHeader),
      scanHeaders fuel s = .ok (pre ++ h :: post) →
      (∀ g ∈ pre, pdfExt.isSuffixOf g.filename = false ∧
        epubExt.isSuffixOf g.filename = false) →
      pdfExt.isSuffixOf h.filename = true →
      detailsLoop fuel s = .ok (.pdf, some h.uncompressed_size) := by
  induction fuel with
  | zero =>
    intro s pre post h hsc
    rw [scanHeaders] at hsc
    cases hsc
  | succ fuel ih =>
    intro s pre post h hsc hpre hp
    rw [scanHeaders] at hsc
    cases hfs : ZipHeader.from_stream s with
    | error e => rw [hfs] at hsc; cases hsc
    | ok o =>
      rw [hfs] at hsc
      match o with
      | none =>
        injection hsc with hh
        exact absurd hh (by simp)
      | some (item, rest) =>
        dsimp only [] at hsc
        cases hsc2 : scanHeaders fuel rest with
        | error e => rw [hsc2] at hsc; cases hsc
        | ok hs2 =>
          rw [hsc2] at hsc
          injection hsc with hh
          cases pre with
          | nil =>
            rw [List.nil_append] at hh
            injection hh with h1 h2
            subst h1
            exact detailsLoop_first_pdf fuel s item rest hfs hp
          | cons g pre2 =>
            rw [List.cons_append] at hh
            injection hh with h1 h2
            have hgprop := hpre g (List.mem_cons_self _ _)
            rw [← h1] at hgprop
            rw [detailsLoop_step fuel s item rest hfs hgprop.1 hgprop.2]
            exact ih rest pre2 post h (by rw [hsc2, h2])
              (fun g2 hg2 => hpre g2 (List.mem_cons_of_mem _ hg2)) hp

theorem detailsLoop_match_epub (fuel : Nat) :
    ∀ (s : List Nat) (pre post : List ZipHeader) (h : ZipHeader),
      scanHeaders fuel s = .ok (pre ++ h :: post) →
      (∀ g ∈ pre, pdfExt.isSuffixOf g.filename = false ∧
        epubExt.isSuffixOf g.filename = false) →
      pdfExt.isSuffixOf h.filename = false →
      epubExt.isSuffixOf h.filename = true →
      detailsLoop fuel s = .ok (.epub, some h.uncompressed_size) := by
  induction fuel with
  | zero =>
    intro s pre post h hsc
    rw [scanHeaders] at hsc
    cases hsc
  | succ fuel ih =>
    intro s pre post h hsc hpre hnp hep
    rw [scanHeaders] at hsc
    cases hfs : ZipHeader.from_stream s with
    | error e => rw [hfs] at hsc; cases hsc
    | ok o =>
      rw [hfs] at hsc
      match o with
      | none =>
        injection hsc with hh
        exact absurd hh (by simp)
      | some (item, rest) =>
        dsimp only [] at hsc
        cases hsc2 : scanHeaders fuel rest with
        | error e => rw [hsc2] at hsc; cases hsc
        | ok hs2 =>
          rw [hsc2] at hsc
          injection hsc with hh
          cases pre with
          | nil =>
            rw [List.nil_append] at hh
            injection hh with h1 h2
            subst h1
            exact detailsLoop_first_epub fuel s item rest hfs hnp hep
          | cons g pre2 =>
            rw [List.cons_append] at hh
            injection hh with h1 h2
            have hgprop := hpre g (List.mem_cons_self _ _)
            rw [← h1] at hgprop
            rw [detailsLoop_step fuel s item rest hfs hgprop.1 hgprop.2]
            exact ih rest pre2 post h (by rw [hsc2, h2])
              (fun g2 hg2 => hpre g2 (List.mem_cons_of_mem _ hg2)) hnp hep

/-- Claim C3, counterexample: `misalignedContent` holds `.content` at
index 82 but no parseable central-directory record at the probe offset
(the scanner returns end-of-directory immediately), and the result is
`(notes, None)` — not the `(unknown, None)` the claim requires for a
range without a parseable directory. -/
theorem get_file_details_misaligned_counterexample :
    rfindSub contentExt misalignedContent = some 82 ∧
    ZipHeader.from_stream (misalignedContent.drop (82 - 82)) = .ok none ∧
    get_file_details misalignedContent = .ok (.notes, none) ∧
    FileType.notes ≠ FileType.unknown := by
  refine ⟨by rfl, by rfl, by rfl, by decide⟩

/-- Claim C3 as amended: `(unknown, None)` exactly when the probe offset
`rfind(b'.content') - 82` is negative.  For a non-negative probe offset
the result is judged against the record list the bytes at that offset
parse into (`scanHeaders`, read with the same `ZipHeader.from_stream`):
if no record's filename ends in `.pdf` or `.epub` — in particular when a
misaligned offset parses as no records at all — the result is
`(notes, None)`; otherwise the first matching record anywhere in the
directory determines the result, `(pdf, its uncompressed size)` or
`(epub, its uncompressed size)`.  Conversely `(unknown, _)` occurs only
at a negative probe offset, a `(t, None)` result at a non-negative
offset forces `t = notes`, and a `(t, size)` result forces
`t ∈ {pdf, epub}`. -/
theorem get_file_details_probe_spec :
    (∀ content : List Nat,
       (∀ i, rfindSub contentExt content = some i → i < 82) →
       get_file_details content = .ok (.unknown, none)) ∧
    (∀ (content : List Nat) (x : Option Nat),
       get_file_details content = .ok (.unknown, x) →
       ∀ i, rfindSub contentExt content = some i → i < 82) ∧
    (∀ (content : List Nat) (i : Nat) (t : FileType),
       rfindSub contentExt content = some i → ¬i < 82 →
       get_file_details content = .ok (t, none) → t = .notes) ∧
    (∀ (content : List Nat) (t : FileType) (n : Nat),
       get_file_details content = .ok (t, some n) → t = .pdf ∨ t = .epub) ∧
    (∀ (content : List Nat) (i : Nat) (hs : List ZipHeader),
       rfindSub contentExt content = some i → ¬i < 82 →
       scanHeaders (content.length + 1) (content.drop (i - 82)) = .ok hs →
       (∀ h ∈ hs, pdfExt.isSuffixOf h.filename = false ∧
         epubExt.isSuffixOf h.filename = false) →
       get_file_details content = .ok (.notes, none)) ∧
    (∀ (content : List Nat) (i : Nat) (pre post : List ZipHeader) (h : ZipHeader),
       rfindSub contentExt content = some i → ¬i < 82 →
       scanHeaders (content.length + 1) (content.drop (i - 82)) =
         .ok (pre ++ h :: post) →
       (∀ g ∈ pre, pdfExt.isSuffixOf g.filename = false ∧
         epubExt.isSuffixOf g.filename = false) →
       pdfExt.isSuffixOf h.filename = true →
       get_file_details content = .ok (.pdf, some h.uncompressed_size)) ∧
    (∀ (content : List Nat) (i : Nat) (pre post : List ZipHeader) (h : ZipHeader),
       rfindSub contentExt content = some i → ¬i < 82 →
       scanHeaders (content.length + 1) (content.drop (i - 82)) =
         .ok (pre ++ h :: post) →
       (∀ g ∈ pre, pdfExt.isSuffixOf g.filename = false ∧
         epubExt.isSuffixOf g.filename = false) →
       pdfExt.isSuffixOf h.filename = false →
       epubExt.isSuffixOf h.filename = true →
       get_file_details content = .ok (.epub, some h.uncompressed_size)) := by
  refine ⟨?_, ?_, ?_, ?_, ?_, ?_, ?_⟩
  · intro content hni
    cases hrf : rfindSub contentExt content with
    | none => simp [get_file_details, hrf]
    | some i => simp [get_file_details, hrf, hni i hrf]
  · intro content x h i hrf
    by_contra hge
    rw [get_file_details, hrf] at h
    dsimp only [] at h
    rw [if_neg hge] at h
    exact detailsLoop_ne_unknown _ _ x h
  · intro content i t hrf hge h
    rw [get_file_details, hrf] at h
    dsimp only [] at h
    rw [if_neg hge] at h
    exact detailsLoop_ok_none _ _ t h
  · intro content t n h
    cases hrf : rfindSub contentExt content with
    | none => rw [get_file_details, hrf] at h; simp at h
    | some i =>
      rw [get_file_details, hrf] at h
      dsimp only [] at h
      by_cases hlt : i < 82
      · rw [if_pos hlt] at h; simp at h
      · rw [if_neg hlt] at h; exact detailsLoop_ok_some _ _ t n h
  · intro content i hs hrf hge hscan hall
    rw [get_file_details, hrf]
    dsimp only []
    rw [if_neg hge]
    exact detailsLoop_no_match _ _ hs hscan hall
  · intro content i pre post h hrf hge hscan hpre hp
    rw [get_file_details, hrf]
    dsimp only []
    rw [if_neg hge]
    exact detailsLoop_match_pdf _ _ pre post h hscan hpre hp
  · intro content i pre post h hrf hge hscan hpre hnp hep
    rw [get_file_details, hrf]
    dsimp only []
    rw [if_neg hge]
    exact detailsLoop_match_epub _ _ pre post h hscan hpre hnp hep

set_option maxRecDepth 8000 in
/-- Claim C3 witness: a directory whose first record is the non-matching
`<36 bytes>.content` member and whose second record is `x.pdf` with
uncompressed size 777 probes to `(pdf, 777)` — the match is found past
the first record. -/
theorem get_file_details_probe_spec_witness :
    get_file_details twoRecordContent = .ok (.pdf, some 777) := by
  have h := get_file_details_probe_spec.2.2.2.2.2.1 twoRecordContent 82
    [twoRecordHeader1] [] twoRecordHeader2 (by rfl) (by decide) (by rfl)
    (by decide) (by decide)
  simpa using h

/-! ### C5 — check_response -/

/-- Claim C5: on a response whose body parses as a JSON array,
`check_response` raises `ApiError` exactly when the status is ≥ 400, the
array is empty, or the first element's `Success` is false — in the last
case with that element's `Message` as the error message — and returns
`True` in every other case. -/
theorem check_response_spec (r : Response) (arr : List RespElem)
    (hj : r.json = some arr) :
    ((∃ msg, check_response r = .error (.api msg)) ↔
      (400 ≤ r.status_code ∨ arr = [] ∨
       ∃ el rest, arr = el :: rest ∧ el.Success = false)) ∧
    (∀ el rest, arr = el :: rest → r.status_code < 400 → el.Success = false →
      check_response r = .error (.api el.Message)) ∧
    (∀ el rest, arr = el :: rest → r.status_code < 400 → el.Success = true →
      check_response r = .ok true) := by
  by_cases hs : 400 ≤ r.status_code
  · refine ⟨⟨fun _ => Or.inl hs, fun _ => ⟨_, by rw [check_response, if_pos hs]⟩⟩,
      ?_, ?_⟩
    · intro el rest harr hlt hsu; exact absurd hs (by omega)
    · intro el rest harr hlt hsu; exact absurd hs (by omega)
  · cases arr with
    | nil =>
      have hw : check_response r = .error (.api "Got An empty response") := by
        rw [check_response, if_neg hs, hj]
      refine ⟨⟨fun _ => Or.inr (Or.inl rfl), fun _ => ⟨_, hw⟩⟩, ?_, ?_⟩
      · intro el rest harr; cases harr
      · intro el rest harr; cases harr
    | cons el rest =>
      by_cases hsu : el.Success = false
      · have hw : check_response r = .error (.api el.Message) := by
          rw [check_response, if_neg hs, hj]
          dsimp only []
          rw [if_pos hsu]
        refine ⟨⟨fun _ => Or.inr (Or.inr ⟨el, rest, rfl, hsu⟩), fun _ => ⟨_, hw⟩⟩,
          ?_, ?_⟩
        · intro el' rest' harr hlt hsu'
          injection harr with h1 h2
          subst h1
          exact hw
        · intro el' rest' harr hlt hsu'
          injection harr with h1 h2
          subst h1
          simp [hsu] at hsu'
      · have hsu' : el.Success = true := by revert hsu; cases el.Success <;> simp
        have hw : check_response r = .ok true := by
          rw [check_response, if_neg hs, hj]
          dsimp only []
          rw [if_neg hsu]
        refine ⟨⟨?_, ?_⟩, ?_, ?_⟩
        · rintro ⟨msg, hmsg⟩
          rw [hw] at hmsg
          cases hmsg
        · rintro (h | h | ⟨el', rest', harr, hfsu⟩)
          · exact absurd h hs
          · cases h
          · injection harr with h1 h2
            subst h1
            exact absurd hfsu hsu
        · intro el' rest' harr hlt hfsu
          injection harr with h1 h2
          subst h1
          exact absurd hfsu hsu
        · intro el' rest' harr hlt htsu
          exact hw

/-- Claim C5 witness: a 200 response whose first element failed with
message `nope`. -/
theorem check_response_spec_witness :
    check_response ⟨200, some [⟨false, "nope", none⟩]⟩ = .error (.api "nope") := by
  have h := (check_response_spec ⟨200, some [⟨false, "nope", none⟩]⟩
    [⟨false, "nope", none⟩] rfl).2.1 ⟨false, "nope", none⟩ [] rfl (by decide) rfl
  exact h

/-! ### C9 — mutating operations invalidate the refresh deadline -/

/-- Claim C9: `Client.delete` and `Client.update_metadata` leave the
refresh deadline cleared no matter what `check_response` decides (in
particular also when they fail with `ApiError`), `Client.upload` clears
it through its final `update_metadata` phase whenever the first two phases
succeed, and a cleared deadline makes the next `get_by_id` refresh. -/
theorem mutating_ops_invalidate_deadline :
    (∀ (st : ClientState) (resp : Response),
       (Client.delete st resp).1.refresh_deadline = none) ∧
    (∀ (st : ClientState) (resp : Response) (e : ApiFailure),
       (Client.delete st resp).2 = .error e →
       (Client.delete st resp).1.refresh_deadline = none) ∧
    (∀ (st : ClientState) (resp : Response),
       (Client.update_metadata st resp).1.refresh_deadline = none) ∧
    (∀ (st : ClientState) (resp : Response) (e : ApiFailure),
       (Client.update_metadata st resp).2 = .error e →
       (Client.update_metadata st resp).1.refresh_deadline = none) ∧
    (∀ (st : ClientState) (r1 : Response) (putStatus : Nat) (r3 : Response) (b : Bool),
       check_response r1 = .ok b → blobURLPut r1 ≠ none → putStatus < 400 →
       (Client.upload st r1 putStatus r3).1.refresh_deadline = none) ∧
    (∀ tnow : Nat, needs_refresh none tnow = true) := by
  refine ⟨fun st resp => rfl, fun st resp e _ => rfl, fun st resp => rfl,
    fun st resp e _ => rfl, ?_, fun tnow => rfl⟩
  intro st r1 putStatus r3 b hchk hurl hps
  rw [Client.upload, hchk]
  dsimp only []
  cases hbu : blobURLPut r1 with
  | none => exact absurd hbu hurl
  | some u =>
    dsimp only []
    rw [if_neg (by omega)]
    rfl

/-- Claim C9 witness: an upload whose final update-status response fails
with status 500 still ends with a cleared deadline. -/
theorem mutating_ops_invalidate_deadline_witness :
    (Client.upload ⟨some 77⟩ ⟨200, some [⟨true, "", some "url"⟩]⟩ 200
       ⟨500, none⟩).1.refresh_deadline = none := by
  exact mutating_ops_invalidate_deadline.2.2.2.2.1
    ⟨some 77⟩ ⟨200, some [⟨true, "", some "url"⟩]⟩ 200 ⟨500, none⟩ true
    rfl (by decide) (by decide)

/-! ### C4 — the config store -/

/-- Claim C4, counterexample: the configuration file is
`<XDG config>/rmcl/config.yaml` read and written as YAML, not
`config.json` as JSON. -/
theorem config_not_json_counterexample :
    CONFIG_FILE ["cfg"] ≠ ["cfg", "rmcl", "config.json"] ∧
    (load_source ["cfg"]).2 ≠ SerFormat.json ∧
    (dump_target ["cfg"]).2 ≠ SerFormat.json := by
  refine ⟨by decide, by decide, by decide⟩

/-- Claim C4 as amended: the persistent credential configuration is
stored at `<XDG config>/rmcl/config.yaml` in YAML format, and both load
and dump read and write exactly that path in that format. -/
theorem config_yaml_path_spec (xdg : List String) :
    CONFIG_FILE xdg = xdg ++ ["rmcl", "config.yaml"] ∧
    load_source xdg = (CONFIG_FILE xdg, SerFormat.yaml) ∧
    dump_target xdg = (CONFIG_FILE xdg, SerFormat.yaml) :=
  ⟨rfl, rfl, rfl⟩

/-! ### C10 — Item.delete and the trash ancestor walk -/

theorem deleteWalk_trash_iff (byId : ItemDict) :
    ∀ (fuel : Nat) (p : Option String) (act : DeleteAction),
      deleteWalk byId p fuel = some act →
      (act = .remoteDelete ↔ TrashAncestor byId p) := by
  intro fuel
  induction fuel with
  | zero =>
    intro p act h
    rw [deleteWalk.eq_def] at h
    dsimp only [] at h
    by_cases ht : parentTruthy p = true
    · rw [if_pos ht] at h; cases h
    · rw [if_neg ht] at h
      injection h with h1
      subst h1
      constructor
      · intro hact; cases hact
      · intro hta
        cases hta with
        | found p s f hp hs hget hid =>
          subst hp; simp [parentTruthy, hs] at ht
        | step p s f hp hs hget hid hrec =>
          subst hp; simp [parentTruthy, hs] at ht
  | succ fuel ih =>
    intro p act h
    rw [deleteWalk.eq_def] at h
    dsimp only [] at h
    by_cases ht : parentTruthy p = true
    · rw [if_pos ht] at h
      cases p with
      | none => simp [parentTruthy] at ht
      | some pid =>
        have hpid : pid ≠ "" := by
          intro hh; subst hh; simp [parentTruthy] at ht
        dsimp only [] at h
        cases hget : dictGet pid byId with
        | none => rw [hget] at h; cases h
        | some f =>
          rw [hget] at h
          dsimp only [] at h
          by_cases hid : f.id = "trash"
          · rw [if_pos hid] at h
            injection h with h1
            subst h1
            exact ⟨fun _ => TrashAncestor.found _ pid f rfl hpid hget hid,
                   fun _ => rfl⟩
          · rw [if_neg hid] at h
            have hiff := ih f.parent act h
            constructor
            · intro hact
              exact TrashAncestor.step _ pid f rfl hpid hget hid (hiff.mp hact)
            · intro hta
              cases hta with
              | found p' s f' hp hs hget' hid' =>
                injection hp with hps
                subst hps
                rw [hget] at hget'
                injection hget' with hf
                subst hf
                exact absurd hid' hid
              | step p' s f' hp hs hget' hid' hrec =>
                injection hp with hps
                subst hps
                rw [hget] at hget'
                injection hget' with hf
                subst hf
                exact hiff.mpr hrec
    · rw [if_neg ht] at h
      injection h with h1
      subst h1
      constructor
      · intro hact; cases hact
      · intro hta
        cases hta with
        | found p s f hp hs hget hid =>
          subst hp; simp [parentTruthy, hs] at ht
        | step p s f hp hs hget hid hrec =>
          subst hp; simp [parentTruthy, hs] at ht

/-- Claim C10: a successful `Item.delete` on a non-virtual item issues
the remote delete request exactly when some ancestor along the parent
chain is the trash folder; otherwise it soft-deletes, re-parenting the
item to `'trash'` and sending the metadata update (so the remote document
survives). -/
theorem item_delete_trash_spec (byId : ItemDict) (it : PItem) (fuel : Nat)
    (act : DeleteAction) (upd : PItem)
    (hv : it.virtual = false)
    (hrun : Item.delete byId it fuel = some (act, upd)) :
    (act = .remoteDelete ↔ TrashAncestor byId it.parent) ∧
    (act = .softDelete →
      ¬TrashAncestor byId it.parent ∧ upd = { it with parent := some "trash" }) := by
  rw [Item.delete] at hrun
  rw [if_neg (by simp [hv])] at hrun
  cases hw : deleteWalk byId it.parent fuel with
  | none => rw [hw] at hrun; cases hrun
  | some wact =>
    rw [hw] at hrun
    have hiff := deleteWalk_trash_iff byId fuel it.parent wact hw
    cases wact with
    | remoteDelete =>
      dsimp only [] at hrun
      injection hrun with h1
      injection h1 with ha hb
      subst ha
      refine ⟨hiff, ?_⟩
      intro hsoft; cases hsoft
    | softDelete =>
      dsimp only [] at hrun
      injection hrun with h1
      injection h1 with ha hb
      subst ha
      subst hb
      constructor
      · constructor
        · intro hact; cases hact
        · intro hta
          exact absurd (hiff.mpr hta) (by intro hh; cases hh)
      · intro _
        refine ⟨?_, rfl⟩
        intro hta
        exact absurd (hiff.mpr hta) (by intro hh; cases hh)

/-- Claim C10 witness: a document inside a folder that sits in the trash
is remote-deleted; a document at the root is soft-deleted to `trash`. -/
theorem item_delete_trash_spec_witness :
    ((DeleteAction.remoteDelete = DeleteAction.remoteDelete) ↔
      TrashAncestor
        [("", ⟨"", 0, none, .vfolder, []⟩), ("trash", ⟨"trash", 0, some "", .vfolder, []⟩),
         ("f", ⟨"f", 1, some "trash", .folder, []⟩)]
        (some "f")) := by
  have h := item_delete_trash_spec
    [("", ⟨"", 0, none, .vfolder, []⟩), ("trash", ⟨"trash", 0, some "", .vfolder, []⟩),
     ("f", ⟨"f", 1, some "trash", .folder, []⟩)]
    ⟨"d", 1, some "f", .document, []⟩ 10 .remoteDelete ⟨"d", 1, some "f", .document, []⟩
    rfl rfl
  exact h.1

/-! ### C2 — the inode map under lookup -/

/-- Claim C2 (exhibiting the code bug): on a fresh filesystem with one
document child (object identity 7, id `doc1`, name `mydoc`), `lookup`
passes the Item object itself to `get_inode`, allocating inode 3 for the
key `obj 7`; the readdir path then allocates a different inode 4 for the
key `str "doc1"`, so the same id receives two inodes across operations,
and after the lookup the id itself is still unmapped (the follow-up
`getattr` would resolve inode 3 to the object, not an id). -/
theorem lookup_object_inode_bug :
    lookup_child_inode RmApiFS.initState [⟨7, "doc1", "mydoc"⟩] "mydoc" =
      some (⟨4, [(1, .str ""), (2, .str "MODE_ID"), (3, .obj 7)]⟩, 3) ∧
    readdir_child_inode ⟨4, [(1, .str ""), (2, .str "MODE_ID"), (3, .obj 7)]⟩
        ⟨7, "doc1", "mydoc"⟩ =
      (⟨5, [(1, .str ""), (2, .str "MODE_ID"), (3, .obj 7), (4, .str "doc1")]⟩, 4) ∧
    (3 : Nat) ≠ 4 ∧
    invGet (IKey.str "doc1")
      [(1, IKey.str ""), (2, IKey.str "MODE_ID"), (3, IKey.obj 7)] = none := by
  refine ⟨rfl, rfl, by decide, rfl⟩

/-! ### C8 — writes to the mode file -/

/-- Claim C8: a write through a handle mapped to the mode file clears the
client refresh deadline on `refresh` and returns the buffer length,
switches the mode on `raw`/`orig`/`meta` and returns the buffer length,
and fails with `FUSEError(EINVAL)` on any other command leaving the state
untouched; a write through a handle mapped to anything else fails with
`FUSEError(EPERM)` and changes nothing. -/
theorem mode_file_write_spec :
    (∀ (st : WFSState) (fh : Nat) (buf : String),
       dictGet fh st.inode_map = some (IKey.str "MODE_ID") →
       (writeCommand buf = "refresh" →
         RmApiFS.write st fh buf =
           .ok (buf.utf8ByteSize, { st with client_refresh_deadline := none })) ∧
       (writeCommand buf = "raw" →
         RmApiFS.write st fh buf = .ok (buf.utf8ByteSize, { st with mode := FSMode.raw })) ∧
       (writeCommand buf = "orig" →
         RmApiFS.write st fh buf = .ok (buf.utf8ByteSize, { st with mode := FSMode.orig })) ∧
       (writeCommand buf = "meta" →
         RmApiFS.write st fh buf = .ok (buf.utf8ByteSize, { st with mode := FSMode.meta })) ∧
       (writeCommand buf ≠ "refresh" → writeCommand buf ≠ "raw" →
        writeCommand buf ≠ "orig" → writeCommand buf ≠ "meta" →
         RmApiFS.write st fh buf = .error (.fuse .EINVAL))) ∧
    (∀ (st : WFSState) (fh : Nat) (buf : String) (k : IKey),
       dictGet fh st.inode_map = some k → k ≠ IKey.str "MODE_ID" →
       RmApiFS.write st fh buf = .error (.fuse .EPERM)) := by
  constructor
  · intro st fh buf hget
    refine ⟨?_, ?_, ?_, ?_, ?_⟩
    · intro hcmd
      rw [RmApiFS.write, hget]
      dsimp only []
      rw [if_neg (by simp), hcmd, if_pos rfl]
    · intro hcmd
      rw [RmApiFS.write, hget]
      dsimp only []
      rw [if_neg (by simp), hcmd]
      rw [if_neg (by decide)]
      rfl
    · intro hcmd
      rw [RmApiFS.write, hget]
      dsimp only []
      rw [if_neg (by simp), hcmd]
      rw [if_neg (by decide)]
      rfl
    · intro hcmd
      rw [RmApiFS.write, hget]
      dsimp only []
      rw [if_neg (by simp), hcmd]
      rw [if_neg (by decide)]
      rfl
    · intro h1 h2 h3 h4
      rw [RmApiFS.write, hget]
      dsimp only []
      rw [if_neg (by simp), if_neg h1]
      rw [show FSMode.ofName (writeCommand buf) = none by
        rw [FSMode.ofName, if_neg h4, if_neg h2, if_neg h3]]
  · intro st fh buf k hget hk
    rw [RmApiFS.write, hget]
    dsimp only []
    rw [if_pos hk]

/-- Claim C8 witness: on a state mapping handle 2 to the mode file and
handle 5 to a document id, the four command outcomes at concrete
buffers. -/
theorem mode_file_write_spec_witness :
    RmApiFS.write ⟨.raw, some 99, [(2, .str "MODE_ID"), (5, .str "doc")]⟩ 2 "  ORIG\n" =
      .ok (7, ⟨.orig, some 99, [(2, .str "MODE_ID"), (5, .str "doc")]⟩) ∧
    RmApiFS.write ⟨.raw, some 99, [(2, .str "MODE_ID"), (5, .str "doc")]⟩ 2 "refresh" =
      .ok (7, ⟨.raw, none, [(2, .str "MODE_ID"), (5, .str "doc")]⟩) ∧
    RmApiFS.write ⟨.raw, some 99, [(2, .str "MODE_ID"), (5, .str "doc")]⟩ 2 "bogus" =
      .error (.fuse .EINVAL) ∧
    RmApiFS.write ⟨.raw, some 99, [(2, .str "MODE_ID"), (5, .str "doc")]⟩ 5 "orig" =
      .error (.fuse .EPERM) := by
  have hm := mode_file_write_spec.1 ⟨.raw, some 99, [(2, .str "MODE_ID"), (5, .str "doc")]⟩
    2 "  ORIG\n" rfl
  have hr := mode_file_write_spec.1 ⟨.raw, some 99, [(2, .str "MODE_ID"), (5, .str "doc")]⟩
    2 "refresh" rfl
  have hb := mode_file_write_spec.1 ⟨.raw, some 99, [(2, .str "MODE_ID"), (5, .str "doc")]⟩
    2 "bogus" rfl
  have hp := mode_file_write_spec.2 ⟨.raw, some 99, [(2, .str "MODE_ID"), (5, .str "doc")]⟩
    5 "orig" (IKey.str "doc") rfl (by decide)
  exact ⟨hm.2.2.1 (by decide), hr.1 (by decide),
         hb.2.2.2.2 (by decide) (by decide) (by decide) (by decide), hp⟩

/-! ### C1 — dictionary lemmas -/

theorem dictGet_dictSet {κ α : Type} [DecidableEq κ] (k k' : κ) (v : α)
    (m : List (κ × α)) :
    dictGet k' (dictSet k v m) = if k = k' then some v else dictGet k' m := by
  induction m with
  | nil => by_cases h : k = k' <;> simp [dictGet, dictSet, h]
  | cons p rest ih =>
    obtain ⟨pk, pv⟩ := p
    rw [dictSet]
    by_cases hp : pk = k
    · rw [if_pos hp]
      by_cases h : k = k'
      · rw [dictGet, if_pos h, if_pos h]
      · rw [dictGet, if_neg h, if_neg h, dictGet,
            if_neg (show ¬pk = k' from fun hh => h (hp.symm.trans hh))]
    · rw [if_neg hp, dictGet]
      by_cases hc : pk = k'
      · rw [if_pos hc, dictGet, if_pos hc,
            if_neg (show ¬k = k' from fun hh => hp (hc.trans hh.symm))]
      · rw [if_neg hc, ih, dictGet, if_neg hc]

theorem mem_keys_of_dictGet {κ α : Type} [DecidableEq κ] (k : κ) (v : α)
    (m : List (κ × α)) (h : dictGet k m = some v) : k ∈ dictKeys m := by
  induction m with
  | nil => cases h
  | cons p rest ih =>
    obtain ⟨pk, pv⟩ := p
    rw [dictGet] at h
    by_cases hp : pk = k
    · exact hp ▸ List.mem_cons_self pk (dictKeys rest)
    · rw [if_neg hp] at h
      exact List.mem_cons_of_mem _ (ih h)

theorem dictGet_eq_none_of_not_mem {κ α : Type} [DecidableEq κ] (k : κ)
    (m : List (κ × α)) (h : k ∉ dictKeys m) : dictGet k m = none := by
  induction m with
  | nil => rfl
  | cons p rest ih =>
    obtain ⟨pk, pv⟩ := p
    rw [dictGet, if_neg (fun hh : pk = k => h (hh ▸ List.mem_cons_self pk (dictKeys rest)))]
    exact ih (fun hh => h (List.mem_cons_of_mem _ hh))

theorem dictGet_mem {κ α : Type} [DecidableEq κ] (k : κ) (v : α)
    (m : List (κ × α)) (h : dictGet k m = some v) : (k, v) ∈ m := by
  induction m with
  | nil => cases h
  | cons p rest ih =>
    obtain ⟨pk, pv⟩ := p
    rw [dictGet] at h
    by_cases hp : pk = k
    · rw [if_pos hp] at h
      injection h with hv
      subst hv
      subst hp
      exact List.mem_cons_self (pk, pv) rest
    · rw [if_neg hp] at h
      exact List.mem_cons_of_mem _ (ih h)

theorem mem_dictGet {κ α : Type} [DecidableEq κ] (k : κ) (v : α)
    (m : List (κ × α)) (hnd : (dictKeys m).Nodup) (h : (k, v) ∈ m) :
    dictGet k m = some v := by
  induction m with
  | nil => cases h
  | cons p rest ih =>
    obtain ⟨pk, pv⟩ := p
    rw [dictKeys, List.map_cons, List.nodup_cons] at hnd
    cases h with
    | head => rw [dictGet, if_pos rfl]
    | tail _ hmem =>
      have hk : k ∈ dictKeys rest := List.mem_map_of_mem Prod.fst hmem
      have hp : pk ≠ k := fun hh => hnd.1 (hh ▸ hk)
      rw [dictGet, if_neg hp]
      exact ih hnd.2 hmem

theorem keys_dictSet_of_mem {κ α : Type} [DecidableEq κ] (k : κ) (v : α)
    (m : List (κ × α)) (h : k ∈ dictKeys m) :
    dictKeys (dictSet k v m) = dictKeys m := by
  induction m with
  | nil => cases h
  | cons p rest ih =>
    obtain ⟨pk, pv⟩ := p
    by_cases hp : pk = k
    · rw [dictSet, if_pos hp]
      simp [dictKeys, hp]
    · rw [dictSet, if_neg hp]
      have hmem : k ∈ dictKeys rest := by
        rcases List.mem_cons.mp h with hh | hh
        · exact absurd hh.symm hp
        · exact hh
      rw [dictKeys, List.map_cons, dictKeys, List.map_cons]
      have hr := ih hmem
      simp only [dictKeys] at hr
      rw [hr]

theorem keys_dictSet_of_not_mem {κ α : Type} [DecidableEq κ] (k : κ) (v : α)
    (m : List (κ × α)) (h : k ∉ dictKeys m) :
    dictKeys (dictSet k v m) = dictKeys m ++ [k] := by
  induction m with
  | nil => rfl
  | cons p rest ih =>
    obtain ⟨pk, pv⟩ := p
    have hp : pk ≠ k := fun hh => h (hh ▸ List.mem_cons_self pk (dictKeys rest))
    rw [dictSet, if_neg hp]
    rw [dictKeys, List.map_cons, dictKeys, List.map_cons]
    have hr := ih (fun hh => h (List.mem_cons_of_mem _ hh))
    simp only [dictKeys] at hr
    rw [hr]
    rfl

theorem keys_dictSet_nodup {κ α : Type} [DecidableEq κ] (k : κ) (v : α)
    (m : List (κ × α)) (hnd : (dictKeys m).Nodup) :
    (dictKeys (dictSet k v m)).Nodup := by
  by_cases h : k ∈ dictKeys m
  · rw [keys_dictSet_of_mem k v m h]; exact hnd
  · rw [keys_dictSet_of_not_mem k v m h]
    simpa [List.nodup_append] using ⟨hnd, fun hh => h hh⟩

theorem dictGet_filter_del (k : String) (m : ItemDict) (dels : List String) :
    dictGet k (m.filter (fun q => decide (q.1 ∉ dels))) =
      if k ∈ dels then none else dictGet k m := by
  induction m with
  | nil => by_cases h : k ∈ dels <;> simp [dictGet, h]
  | cons p rest ih =>
    obtain ⟨pk, pv⟩ := p
    by_cases hp : pk ∈ dels
    · rw [List.filter_cons_of_neg (by simpa using hp)]
      rw [ih]
      by_cases hk : k ∈ dels
      · simp [hk]
      · have hne : pk ≠ k := fun hh => hk (hh ▸ hp)
        simp [hk, dictGet, hne]
    · rw [List.filter_cons_of_pos (by simpa using hp)]
      by_cases hpk : pk = k
      · subst hpk
        simp [dictGet, hp]
      · rw [dictGet, if_neg hpk, ih, dictGet, if_neg hpk]

/-! ### C1 — the per-entry loop of update_items -/

theorem from_metadata_id (e : Meta) (it : PItem)
    (h : Item.from_metadata e = some it) : it.id = e.ID ∧ it.children = [] := by
  rw [Item.from_metadata] at h
  by_cases h1 : e.Type' = "DocumentType"
  · rw [if_pos h1] at h
    injection h with hh
    subst hh
    exact ⟨rfl, rfl⟩
  · rw [if_neg h1] at h
    by_cases h2 : e.Type' = "CollectionType"
    · rw [if_pos h2] at h
      injection h with hh
      subst hh
      exact ⟨rfl, rfl⟩
    · rw [if_neg h2] at h
      cases h

theorem updateStep_inv (m m2 : ItemDict) (ids ids2 : List String) (e : Meta)
    (h : updateStep (m, ids) e = some (m2, ids2))
    (hwf : ∀ k it, dictGet k m = some it → it.id = k) :
    (∀ k it, dictGet k m2 = some it → it.id = k) ∧
    ((dictKeys m).Nodup → (dictKeys m2).Nodup) ∧
    ((∀ k f, dictGet k m = some f → f.isFolder = true → f.children = [] ∨ k ∈ ids) →
     (∀ k f, dictGet k m2 = some f → f.isFolder = true → f.children = [] ∨ k ∈ ids2)) ∧
    (∀ k, k ∈ ids → e.ID ≠ k → k ∈ ids2) := by
  rw [updateStep] at h
  dsimp only [] at h
  cases hold : dictGet e.ID m with
  | some old =>
    rw [hold] at h
    dsimp only [] at h
    have holdid : old.id = e.ID := hwf e.ID old hold
    by_cases hmem : old.id ∈ ids
    · rw [if_pos hmem] at h
      by_cases hver : old.version ≠ e.Version
      · rw [if_pos hver] at h
        cases hfm : Item.from_metadata e with
        | none => rw [hfm] at h; cases h
        | some new =>
          rw [hfm] at h
          injection h with h1
          injection h1 with hm hi
          subst hm
          subst hi
          obtain ⟨hnid, hnch⟩ := from_metadata_id e new hfm
          refine ⟨?_, ?_, ?_, ?_⟩
          · intro k it hgi
            rw [dictGet_dictSet] at hgi
            by_cases hk : new.id = k
            · rw [if_pos hk] at hgi
              injection hgi with hv
              subst hv
              exact hk
            · rw [if_neg hk] at hgi
              exact hwf k it hgi
          · intro hnd
            exact keys_dictSet_nodup _ _ _ hnd
          · intro hfi k f hgf hfold
            rw [dictGet_dictSet] at hgf
            by_cases hk : new.id = k
            · rw [if_pos hk] at hgf
              injection hgf with hv
              subst hv
              exact Or.inl hnch
            · rw [if_neg hk] at hgf
              rcases hfi k f hgf hfold with hc | hc
              · exact Or.inl hc
              · refine Or.inr ((List.mem_erase_of_ne ?_).mpr hc)
                intro hh
                exact hk (by rw [hnid, ← holdid, ← hh])
          · intro k hk hne
            refine (List.mem_erase_of_ne ?_).mpr hk
            intro hh
            exact hne (by rw [← holdid, hh])
      · rw [if_neg hver] at h
        by_cases hfold : old.isFolder = true
        · rw [if_pos hfold] at h
          injection h with h1
          injection h1 with hm hi
          subst hm
          subst hi
          refine ⟨?_, ?_, ?_, ?_⟩
          · intro k it hgi
            rw [dictGet_dictSet] at hgi
            by_cases hk : e.ID = k
            · rw [if_pos hk] at hgi
              injection hgi with hv
              subst hv
              rw [show (clearChildren old).id = old.id from rfl, holdid]
              exact hk
            · rw [if_neg hk] at hgi
              exact hwf k it hgi
          · intro hnd
            exact keys_dictSet_nodup _ _ _ hnd
          · intro hfi k f hgf hfold2
            rw [dictGet_dictSet] at hgf
            by_cases hk : e.ID = k
            · rw [if_pos hk] at hgf
              injection hgf with hv
              subst hv
              exact Or.inl rfl
            · rw [if_neg hk] at hgf
              rcases hfi k f hgf hfold2 with hc | hc
              · exact Or.inl hc
              · refine Or.inr ((List.mem_erase_of_ne ?_).mpr hc)
                intro hh
                exact hk (by rw [← holdid, ← hh])
          · intro k hk hne
            refine (List.mem_erase_of_ne ?_).mpr hk
            intro hh
            exact hne (by rw [← holdid, hh])
        · rw [if_neg hfold] at h
          injection h with h1
          injection h1 with hm hi
          subst hm
          subst hi
          refine ⟨hwf, fun hnd => hnd, ?_, ?_⟩
          · intro hfi k f hgf hfold2
            rcases hfi k f hgf hfold2 with hc | hc
            · exact Or.inl hc
            · refine Or.inr ((List.mem_erase_of_ne ?_).mpr hc)
              intro hh
              subst hh
              rw [holdid, hold] at hgf
              injection hgf with hv
              subst hv
              exact hfold hfold2
          · intro k hk hne
            refine (List.mem_erase_of_ne ?_).mpr hk
            intro hh
            exact hne (by rw [← holdid, hh])
    · rw [if_neg hmem] at h
      cases h
  | none =>
    rw [hold] at h
    dsimp only [] at h
    cases hfm : Item.from_metadata e with
    | none => rw [hfm] at h; cases h
    | some new =>
      rw [hfm] at h
      injection h with h1
      injection h1 with hm hi
      subst hm
      subst hi
      obtain ⟨hnid, hnch⟩ := from_metadata_id e new hfm
      refine ⟨?_, ?_, ?_, fun k hk _ => hk⟩
      · intro k it hgi
        rw [dictGet_dictSet] at hgi
        by_cases hk : new.id = k
        · rw [if_pos hk] at hgi
          injection hgi with hv
          subst hv
          exact hk
        · rw [if_neg hk] at hgi
          exact hwf k it hgi
      · intro hnd
        exact keys_dictSet_nodup _ _ _ hnd
      · intro hfi k f hgf hfold
        rw [dictGet_dictSet] at hgf
        by_cases hk : new.id = k
        · rw [if_pos hk] at hgf
          injection hgf with hv
          subst hv
          exact Or.inl hnch
        · rw [if_neg hk] at hgf
          exact hfi k f hgf hfold

theorem runEntries_inv (es : List Meta) :
    ∀ (m : ItemDict) (ids : List String) (m2 : ItemDict) (ids2 : List String),
      runEntries (m, ids) es = some (m2, ids2) →
      (∀ k it, dictGet k m = some it → it.id = k) →
      ((∀ k it, dictGet k m2 = some it → it.id = k) ∧
       ((dictKeys m).Nodup → (dictKeys m2).Nodup) ∧
       ((∀ k f, dictGet k m = some f → f.isFolder = true → f.children = [] ∨ k ∈ ids) →
        (∀ k f, dictGet k m2 = some f → f.isFolder = true → f.children = [] ∨ k ∈ ids2)) ∧
       (∀ k, k ∈ ids → (∀ e ∈ es, e.ID ≠ k) → k ∈ ids2)) := by
  induction es with
  | nil =>
    intro m ids m2 ids2 h hwf
    rw [runEntries] at h
    injection h with h1
    injection h1 with hm hi
    subst hm
    subst hi
    exact ⟨hwf, fun hnd => hnd, fun hfi => hfi, fun k hk _ => hk⟩
  | cons e rest ih =>
    intro m ids m2 ids2 h hwf
    rw [runEntries] at h
    cases hstep : updateStep (m, ids) e with
    | none => rw [hstep] at h; cases h
    | some st1 =>
      obtain ⟨m1, ids1⟩ := st1
      rw [hstep] at h
      dsimp only [] at h
      have hone := updateStep_inv m m1 ids ids1 e hstep hwf
      have hrest := ih m1 ids1 m2 ids2 h hone.1
      refine ⟨hrest.1, fun hnd => hrest.2.1 (hone.2.1 hnd),
              fun hfi => hrest.2.2.1 (hone.2.2.1 hfi), ?_⟩
      intro k hk hne
      exact hrest.2.2.2 k
        (hone.2.2.2 k hk (hne e (List.mem_cons_self e rest)))
        (fun e' he' => hne e' (List.mem_cons_of_mem e he'))

/-! ### C1 — the children-accumulation loop -/

theorem addChildren_get (L : List (String × Option String)) :
    ∀ (b b' : ItemDict), addChildren b L = some b' →
    ∀ k f, dictGet k b = some f →
      dictGet k b' = some { f with children :=
        f.children ++ (L.filter (fun x => decide (x.2 = some k))).map Prod.fst } := by
  induction L with
  | nil =>
    intro b b' h k f hf
    rw [addChildren] at h
    injection h with hb
    subst hb
    simp only [List.filter_nil, List.map_nil, List.append_nil]
    exact hf
  | cons x rest ih =>
    intro b b' h k f hf
    obtain ⟨cid, par⟩ := x
    cases par with
    | none =>
      rw [addChildren] at h
      rw [List.filter_cons_of_neg (by simp)]
      exact ih b b' h k f hf
    | some p =>
      rw [addChildren] at h
      cases hac : addChild b cid p with
      | none => rw [hac] at h; cases h
      | some b1 =>
        rw [hac] at h
        dsimp only [] at h
        rw [addChild] at hac
        cases hgp : dictGet p b with
        | none => rw [hgp] at hac; cases hac
        | some g =>
          rw [hgp] at hac
          dsimp only [] at hac
          by_cases hfold : g.isFolder = true
          · rw [if_pos hfold] at hac
            injection hac with hb1
            subst hb1
            by_cases hk : p = k
            · subst hk
              rw [hgp] at hf
              injection hf with hv
              subst hv
              have hg1 : dictGet p (dictSet p { g with children := g.children ++ [cid] } b) =
                  some { g with children := g.children ++ [cid] } := by
                rw [dictGet_dictSet, if_pos rfl]
              have hres := ih _ b' h p _ hg1
              rw [hres, List.filter_cons_of_pos (by simp)]
              simp [List.append_assoc]
            · have hg1 : dictGet k (dictSet p { g with children := g.children ++ [cid] } b) =
                  some f := by
                rw [dictGet_dictSet, if_neg hk]
                exact hf
              have hres := ih _ b' h k f hg1
              rw [hres, List.filter_cons_of_neg (by simp [hk])]
          · rw [if_neg hfold] at hac
            cases hac

theorem addChildren_none (L : List (String × Option String)) :
    ∀ (b b' : ItemDict), addChildren b L = some b' →
    ∀ k, dictGet k b = none → dictGet k b' = none := by
  induction L with
  | nil =>
    intro b b' h k hk
    rw [addChildren] at h
    injection h with hb
    subst hb
    exact hk
  | cons x rest ih =>
    intro b b' h k hk
    obtain ⟨cid, par⟩ := x
    cases par with
    | none =>
      rw [addChildren] at h
      exact ih b b' h k hk
    | some p =>
      rw [addChildren] at h
      cases hac : addChild b cid p with
      | none => rw [hac] at h; cases h
      | some b1 =>
        rw [hac] at h
        dsimp only [] at h
        rw [addChild] at hac
        cases hgp : dictGet p b with
        | none => rw [hgp] at hac; cases hac
        | some g =>
          rw [hgp] at hac
          dsimp only [] at hac
          by_cases hfold : g.isFolder = true
          · rw [if_pos hfold] at hac
            injection hac with hb1
            subst hb1
            have hpk : p ≠ k := by
              intro hh
              subst hh
              rw [hgp] at hk
              cases hk
            refine ih _ b' h k ?_
            rw [dictGet_dictSet, if_neg hpk]
            exact hk
          · rw [if_neg hfold] at hac
            cases hac

theorem addChildren_parents (L : List (String × Option String)) :
    ∀ (b b' : ItemDict), addChildren b L = some b' →
    ∀ cid pr, (cid, some pr) ∈ L → ∃ g, dictGet pr b' = some g := by
  induction L with
  | nil =>
    intro b b' h cid pr hmem
    cases hmem
  | cons x rest ih =>
    intro b b' h cid pr hmem
    obtain ⟨xc, xp⟩ := x
    rcases List.mem_cons.mp hmem with heq | htail
    · injection heq with h1 h2
      subst h1
      subst h2
      rw [addChildren] at h
      cases hac : addChild b cid pr with
      | none => rw [hac] at h; cases h
      | some b1 =>
        rw [hac] at h
        dsimp only [] at h
        rw [addChild] at hac
        cases hgp : dictGet pr b with
        | none => rw [hgp] at hac; cases hac
        | some g =>
          rw [hgp] at hac
          dsimp only [] at hac
          by_cases hfold : g.isFolder = true
          · rw [if_pos hfold] at hac
            injection hac with hb1
            subst hb1
            have hg1 : dictGet pr (dictSet pr { g with children := g.children ++ [cid] } b) =
                some { g with children := g.children ++ [cid] } := by
              rw [dictGet_dictSet, if_pos rfl]
            exact ⟨_, addChildren_get rest _ b' h pr _ hg1⟩
          · rw [if_neg hfold] at hac
            cases hac
    · cases xp with
      | none =>
        rw [addChildren] at h
        exact ih b b' h cid pr htail
      | some p' =>
        rw [addChildren] at h
        cases hac : addChild b xc p' with
        | none => rw [hac] at h; cases h
        | some b1 =>
          rw [hac] at h
          dsimp only [] at h
          exact ih b1 b' h cid pr htail

/-! ### C1 — counting children -/

theorem count_children (c k : String) (L : List (String × Option String)) :
    ((L.filter (fun x => decide (x.2 = some k))).map Prod.fst).count c =
      L.countP (fun x => decide (x.1 = c) && decide (x.2 = some k)) := by
  rw [List.count_eq_countP, List.countP_map, List.countP_filter]
  apply List.countP_congr
  intro x hx
  by_cases h : x.1 = c <;> simp [h]

theorem countP_unique_key (c k : String) :
    ∀ (m : ItemDict), (dictKeys m).Nodup → (∀ p ∈ m, (p.2).id = p.1) →
      m.countP (fun q => decide (q.2.id = c) && decide (q.2.parent = some k)) =
        (match dictGet c m with
         | some g => if g.parent = some k then 1 else 0
         | none => 0) := by
  intro m
  induction m with
  | nil => intro _ _; rfl
  | cons p rest ih =>
    intro hnd hwf
    obtain ⟨pk, pv⟩ := p
    have hpv : pv.id = pk := hwf (pk, pv) (List.mem_cons_self _ _)
    have hnd' : pk ∉ dictKeys rest ∧ (dictKeys rest).Nodup := by
      simpa [dictKeys] using hnd
    have hwf' : ∀ p ∈ rest, (p.2).id = p.1 :=
      fun p hp => hwf p (List.mem_cons_of_mem _ hp)
    rw [List.countP_cons, dictGet]
    by_cases hc : pk = c
    · rw [if_pos hc]
      subst hc
      have hz : rest.countP
          (fun q => decide (q.2.id = pk) && decide (q.2.parent = some k)) = 0 := by
        rw [List.countP_eq_zero]
        intro q hq hpred
        have hq1 : q.2.id = q.1 := hwf' q hq
        have hqk : q.2.id = pk := by
          have := (Bool.and_eq_true _ _).mp hpred
          exact of_decide_eq_true this.1
        have : pk ∈ dictKeys rest := by
          rw [← hq1.symm.trans hqk]
          exact List.mem_map_of_mem Prod.fst hq
        exact hnd'.1 this
      rw [hz]
      by_cases hp : pv.parent = some k
      · simp [hpv, hp]
      · simp [hpv, hp]
    · rw [if_neg hc]
      have hne : ¬(pv.id = c) := by rw [hpv]; exact hc
      rw [ih hnd'.2 hwf']
      simp [hne]

/-! ### C1 — the update_items graph invariants -/

/-- Claim C1, counterexample: over the initial map and an empty metadata
list, the id `""` (the root) was previously in the map and is absent from
the list, yet a successful `update_items` keeps it — so "every id
previously in the map but absent from the list has been removed" fails as
stated (the hypothesis on parents holds vacuously). -/
theorem update_items_keeps_root_counterexample :
    (∃ it, dictGet "" clientInitById = some it) ∧
    (∀ e ∈ ([] : List Meta), e.ID ≠ "") ∧
    ∃ m', update_items clientInitById [] = some m' ∧ dictGet "" m' ≠ none := by
  refine ⟨⟨rootFolder, rfl⟩, fun e he => absurd he (List.not_mem_nil e), ?_⟩
  refine ⟨[("", ⟨"", 0, none, .vfolder, ["trash"]⟩),
           ("trash", ⟨"trash", 0, some "", .vfolder, []⟩)], by rfl, by decide⟩

/-- Claim C1 as amended: after a successful `update_items` over a
metadata list in which every entry's Parent is `""`, `"trash"`, or the ID
of another entry, every non-virtual item's parent resolves in the
resulting map, each folder's children list contains exactly the items
whose parent equals that folder's id with each child appearing exactly
once, and every id other than the root id `""` and `"trash"` that was
previously in the map but is absent from the list has been removed. -/
theorem update_items_graph_spec
    (byId : ItemDict) (entries : List Meta) (m' : ItemDict)
    (hnd : (dictKeys byId).Nodup)
    (hwf : ∀ p ∈ byId, (p.2).id = p.1)
    (hpar : ∀ e ∈ entries, e.Parent = some "" ∨ e.Parent = some "trash" ∨
            ∃ e' ∈ entries, e' ≠ e ∧ some e'.ID = e.Parent)
    (hrun : update_items byId entries = some m') :
    (∀ k it, dictGet k m' = some it → it.virtual = false →
       ∀ q, it.parent = some q → ∃ pf, dictGet q m' = some pf) ∧
    (∀ k f, dictGet k m' = some f → f.isFolder = true →
       ∀ c, f.children.count c =
         (match dictGet c m' with
          | some g => if g.parent = some f.id then 1 else 0
          | none => 0)) ∧
    (∀ k, (∃ it, dictGet k byId = some it) → k ≠ "" → k ≠ "trash" →
       (∀ e ∈ entries, e.ID ≠ k) → dictGet k m' = none) := by
  have hwfg0 : ∀ k it, dictGet k byId = some it → it.id = k :=
    fun k it h => hwf (k, it) (dictGet_mem k it byId h)
  rw [update_items] at hrun
  dsimp only [] at hrun
  cases hroot : dictGet "" byId with
  | none => rw [hroot] at hrun; cases hrun
  | some root =>
    rw [hroot] at hrun
    cases htrash : dictGet "trash" byId with
    | none => rw [htrash] at hrun; cases hrun
    | some trash =>
      rw [htrash] at hrun
      dsimp only [] at hrun
      cases hre : runEntries
          (dictSet "trash" (clearChildren trash) (dictSet "" (clearChildren root) byId),
           (dictKeys byId).filter (fun k => decide (k ≠ "") && decide (k ≠ "trash")))
          entries with
      | none => rw [hre] at hrun; cases hrun
      | some st2 =>
        obtain ⟨b2, remaining⟩ := st2
        rw [hre] at hrun
        dsimp only [] at hrun
        -- the state after clearing root and trash children
        have hwfgB1 : ∀ k it,
            dictGet k (dictSet "trash" (clearChildren trash)
              (dictSet "" (clearChildren root) byId)) = some it → it.id = k := by
          intro k it h
          rw [dictGet_dictSet] at h
          by_cases hk : "trash" = k
          · rw [if_pos hk] at h
            injection h with hv
            subst hv
            rw [show (clearChildren trash).id = trash.id from rfl,
                hwfg0 "trash" trash htrash]
            exact hk
          · rw [if_neg hk, dictGet_dictSet] at h
            by_cases hk2 : "" = k
            · rw [if_pos hk2] at h
              injection h with hv
              subst hv
              rw [show (clearChildren root).id = root.id from rfl,
                  hwfg0 "" root hroot]
              exact hk2
            · rw [if_neg hk2] at h
              exact hwfg0 k it h
        have hndB1 : (dictKeys (dictSet "trash" (clearChildren trash)
            (dictSet "" (clearChildren root) byId))).Nodup :=
          keys_dictSet_nodup _ _ _ (keys_dictSet_nodup _ _ _ hnd)
        have hfiB1 : ∀ k f,
            dictGet k (dictSet "trash" (clearChildren trash)
              (dictSet "" (clearChildren root) byId)) = some f →
            f.isFolder = true → f.children = [] ∨
            k ∈ (dictKeys byId).filter
              (fun k => decide (k ≠ "") && decide (k ≠ "trash")) := by
          intro k f h hfold
          rw [dictGet_dictSet] at h
          by_cases hk : "trash" = k
          · rw [if_pos hk] at h
            injection h with hv
            subst hv
            exact Or.inl rfl
          · rw [if_neg hk, dictGet_dictSet] at h
            by_cases hk2 : "" = k
            · rw [if_pos hk2] at h
              injection h with hv
              subst hv
              exact Or.inl rfl
            · rw [if_neg hk2] at h
              refine Or.inr (List.mem_filter.mpr
                ⟨mem_keys_of_dictGet k f byId h, ?_⟩)
              simp only [ne_eq, Bool.and_eq_true, decide_eq_true_eq]
              exact ⟨fun hh => hk2 hh.symm, fun hh => hk hh.symm⟩
        have hinv := runEntries_inv entries _ _ b2 remaining hre hwfgB1
        have hwfg2 := hinv.1
        have hnd2 := hinv.2.1 hndB1
        have hfi2 := hinv.2.2.1 hfiB1
        have hget3 : ∀ k, dictGet k
            (b2.filter (fun q => decide (q.1 ∉ remaining))) =
            if k ∈ remaining then none else dictGet k b2 :=
          fun k => dictGet_filter_del k b2 remaining
        have hwfg3 : ∀ k it,
            dictGet k (b2.filter (fun q => decide (q.1 ∉ remaining))) = some it →
            it.id = k := by
          intro k it h
          rw [hget3] at h
          by_cases hk : k ∈ remaining
          · rw [if_pos hk] at h; cases h
          · rw [if_neg hk] at h; exact hwfg2 k it h
        have hnd3 : (dictKeys
            (b2.filter (fun q => decide (q.1 ∉ remaining)))).Nodup :=
          hnd2.sublist ((List.filter_sublist b2).map Prod.fst)
        have hfi3 : ∀ k f,
            dictGet k (b2.filter (fun q => decide (q.1 ∉ remaining))) = some f →
            f.isFolder = true → f.children = [] := by
          intro k f h hfold
          rw [hget3] at h
          by_cases hk : k ∈ remaining
          · rw [if_pos hk] at h; cases h
          · rw [if_neg hk] at h
            rcases hfi2 k f h hfold with hc | hc
            · exact hc
            · exact absurd hc hk
        have hwfmem3 : ∀ p ∈ b2.filter (fun q => decide (q.1 ∉ remaining)),
            (p.2).id = p.1 := by
          intro p hp
          obtain ⟨pk, pv⟩ := p
          exact hwfg3 pk pv (mem_dictGet pk pv _ hnd3 hp)
        refine ⟨?_, ?_, ?_⟩
        · -- (a) parents resolve
          intro k it hit hv q hq
          cases hg3 : dictGet k (b2.filter (fun q => decide (q.1 ∉ remaining))) with
          | none =>
            rw [addChildren_none _ _ m' hrun k hg3] at hit
            cases hit
          | some f =>
            have hgm := addChildren_get _ _ m' hrun k f hg3
            rw [hgm] at hit
            injection hit with hv2
            have hpar' : f.parent = some q := by
              rw [← hq, ← hv2]
            have hmem3 : (k, f) ∈ b2.filter (fun q => decide (q.1 ∉ remaining)) :=
              dictGet_mem k f _ hg3
            have hmemL : (f.id, f.parent) ∈
                (b2.filter (fun q => decide (q.1 ∉ remaining))).map
                  (fun q => (q.2.id, q.2.parent)) :=
              List.mem_map_of_mem _ hmem3
            rw [hpar'] at hmemL
            exact addChildren_parents _ _ m' hrun f.id q hmemL
        · -- (b) children exactness
          intro k f hfm hfold c
          cases hg3 : dictGet k (b2.filter (fun q => decide (q.1 ∉ remaining))) with
          | none =>
            rw [addChildren_none _ _ m' hrun k hg3] at hfm
            cases hfm
          | some f0 =>
            have hgm := addChildren_get _ _ m' hrun k f0 hg3
            rw [hgm] at hfm
            injection hfm with hv2
            have hfold0 : f0.isFolder = true := by rw [← hv2] at hfold; exact hfold
            have hch0 : f0.children = [] := hfi3 k f0 hg3 hfold0
            have hid0 : f0.id = k := hwfg3 k f0 hg3
            have hfid : f.id = k := by rw [← hv2]; exact hid0
            have hcount : f.children.count c =
                (b2.filter (fun q => decide (q.1 ∉ remaining))).countP
                  (fun q => decide (q.2.id = c) && decide (q.2.parent = some k)) := by
              rw [← hv2]
              dsimp only []
              rw [hch0, List.nil_append, count_children, List.countP_map]
              apply List.countP_congr
              intro x hx
              constructor
              · intro hh; exact hh
              · intro hh; exact hh
            rw [hcount, countP_unique_key c k _ hnd3 hwfmem3, hfid]
            cases hgc : dictGet c (b2.filter (fun q => decide (q.1 ∉ remaining))) with
            | none =>
              rw [addChildren_none _ _ m' hrun c hgc]
            | some g =>
              rw [addChildren_get _ _ m' hrun c g hgc]
        · -- (c) stale ids removed
          rintro k ⟨it, hit⟩ hk1 hk2 hne
          have hkold : k ∈ (dictKeys byId).filter
              (fun k => decide (k ≠ "") && decide (k ≠ "trash")) :=
            List.mem_filter.mpr ⟨mem_keys_of_dictGet k it byId hit, by simp [hk1, hk2]⟩
          have hkrem : k ∈ remaining := hinv.2.2.2 k hkold hne
          have h3 : dictGet k (b2.filter (fun q => decide (q.1 ∉ remaining))) = none := by
            rw [hget3, if_pos hkrem]
          exact addChildren_none _ _ m' hrun k h3

/-- Claim C1 witness: the initial map refreshed against a folder `f1`
under root and a document `d1` inside it. -/
theorem update_items_graph_spec_witness :
    (∀ k it, dictGet k exResult = some it → it.virtual = false →
       ∀ q, it.parent = some q → ∃ pf, dictGet q exResult = some pf) ∧
    (∀ k f, dictGet k exResult = some f → f.isFolder = true →
       ∀ c, f.children.count c =
         (match dictGet c exResult with
          | some g => if g.parent = some f.id then 1 else 0
          | none => 0)) ∧
    (∀ k, (∃ it, dictGet k clientInitById = some it) → k ≠ "" → k ≠ "trash" →
       (∀ e ∈ exEntries, e.ID ≠ k) → dictGet k exResult = none) := by
  exact update_items_graph_spec clientInitById exEntries exResult
    (by decide) (by decide) (by decide) (by rfl)

end Rmcl
